import Mathlib

/-!
Shallow embedding of the go-diff comparison engine (src/diff/diff.go) and
proofs about it.

Go values are modelled by the mutually inductive family `GoVal` / `VFields`
/ `VElems`, covering the kinds the engine dispatches on: signed and
unsigned integers, floating point numbers (modelled as exact rationals in
numerator/denominator form, see `Flt`), strings, booleans, pointers,
slices/arrays, string-keyed maps and structs.  Function, channel, complex
and interface kinds are outside the modelled universe; like maps, the
engine treats them as unsupported and never reports a difference for them.
`VFields` is the ordered field list of a struct (also used for the entries
of a string-keyed map) and `VElems` the element list of a slice; they are
bespoke list types so that the whole family admits decidable equality and
structural recursion.

Go types are modelled by `GoTy` / `TyFields`.  A struct type carries its
(possibly empty) name — `""` models an anonymous (unnamed) struct type
literal — together with its ordered field list; `typeOf` recovers the type
of a value.  A pointer value is either `nilPtrV t` (a nil pointer) or
`ptrV t v` (a pointer whose pointee is `v`).
-/

/-- An exact floating point value `num / den`.  The source compares float64
fields by `math.Abs(flx-fly) > Tolerance`; the model performs the same
absolute-difference comparison over exact rationals (see
`floatAbsDiffGtTol` and its characterisation `floatAbsDiffGtTol_iff`).
Meaningful values have `den > 0`. -/
structure Flt where
  num : Int
  den : Nat
  deriving DecidableEq

mutual

inductive GoTy where
  | intT
  | uintT
  | floatT
  | strT
  | boolT
  | ptrT (elem : GoTy)
  | sliceT (elem : GoTy)
  | mapT (val : GoTy)
  | structT (name : String) (fields : TyFields)
  deriving DecidableEq

inductive TyFields where
  | tnil
  | tcons (nm : String) (t : GoTy) (rest : TyFields)
  deriving DecidableEq

end

mutual

inductive GoVal where
  | intV (i : Int)
  | uintV (u : Nat)
  | floatV (f : Flt)
  | strV (s : String)
  | boolV (b : Bool)
  | nilPtrV (elem : GoTy)
  | ptrV (elem : GoTy) (pointee : GoVal)
  | sliceV (elem : GoTy) (elems : VElems)
  | mapV (val : GoTy) (entries : VFields)
  | structV (name : String) (fields : VFields)
  deriving DecidableEq

inductive VFields where
  | fnil
  | fcons (nm : String) (v : GoVal) (rest : VFields)
  deriving DecidableEq

inductive VElems where
  | enil
  | econs (v : GoVal) (rest : VElems)
  deriving DecidableEq

end

/-! Basic accessors on the value family. -/

/-- Number of fields. -/
def VFields.size : VFields → Nat
  | .fnil => 0
  | .fcons _ _ rest => 1 + rest.size

/-- The field list as an ordinary association list (used only to state
properties, never by the engine itself). -/
def VFields.toList : VFields → List (String × GoVal)
  | .fnil => []
  | .fcons nm v rest => (nm, v) :: rest.toList

/-- Model of `reflect.Value.FieldByName` over the ordered field list of a
struct: first field with the given name (the zero `Value` returned on a
missing name is modelled as `none`). -/
def VFields.lookup : VFields → String → Option GoVal
  | .fnil, _ => none
  | .fcons nm v rest, key => if nm == key then some v else rest.lookup key

/-- Whether some field has the given name. -/
def VFields.hasKey : VFields → String → Bool
  | .fnil, _ => false
  | .fcons nm _ rest, key => nm == key || rest.hasKey key

/-- Pairwise distinct field names (Go struct types cannot repeat a field
name, so every struct value reachable from a Go program satisfies this). -/
def VFields.nodupKeys : VFields → Bool
  | .fnil => true
  | .fcons nm _ rest => !rest.hasKey nm && rest.nodupKeys

/-- Number of elements (`reflect.Value.Len`). -/
def VElems.size : VElems → Nat
  | .enil => 0
  | .econs _ rest => 1 + rest.size

/-- The element list as an ordinary list (used only to state properties). -/
def VElems.toList : VElems → List GoVal
  | .enil => []
  | .econs v rest => v :: rest.toList

/-- Drop the first `n` elements. -/
def VElems.drop : VElems → Nat → VElems
  | es, 0 => es
  | .enil, _ + 1 => .enil
  | .econs _ rest, n + 1 => rest.drop n

/-- The element at index `i` (`reflect.Value.Index`). -/
def VElems.get? : VElems → Nat → Option GoVal
  | .enil, _ => none
  | .econs v _, 0 => some v
  | .econs _ rest, i + 1 => rest.get? i

mutual

/-- The reflective type of a value (struct types are recovered from the
value's fields; a well-typed Go program guarantees that all values of one
struct type agree on this shape). -/
def typeOf : GoVal → GoTy
  | .intV _ => .intT
  | .uintV _ => .uintT
  | .floatV _ => .floatT
  | .strV _ => .strT
  | .boolV _ => .boolT
  | .nilPtrV t => .ptrT t
  | .ptrV t _ => .ptrT t
  | .sliceV t _ => .sliceT t
  | .mapV t _ => .mapT t
  | .structV n fs => .structT n (typesOfFields fs)

/-- Field-wise types of a struct value. -/
def typesOfFields : VFields → TyFields
  | .fnil => .tnil
  | .fcons nm v rest => .tcons nm (typeOf v) (typesOfFields rest)

end

/-- Model of `reflect.Type.AssignableTo` restricted to the modelled
universe.  Per the Go assignability rules, a value of type `t` is
assignable to `u` when the types are identical, or when they have identical
underlying types and at least one of the two is not a named (defined) type.
Within the modelled universe the only named types are struct types with a
nonempty name, so the second disjunct applies exactly to a pair of struct
types with identical field lists of which at least one is anonymous. -/
def assignableTo (t u : GoTy) : Bool :=
  t == u ||
    match t, u with
    | .structT n fs, .structT m gs => fs == gs && (n == "" || m == "")
    | _, _ => false

/-- Model of `isExported` (src/diff/diff.go lines 255-262): the source
lowercases the first byte of the field name and reports a difference.  For
the ASCII identifiers modelled here this is first-character case
analysis. -/
def isExported (fieldName : String) : Bool :=
  match fieldName.data with
  | [] => false
  | c :: _ => Char.toLower c != c

/-- Whether no field of the list is exported (the loop of
`isFullyNonExportedStruct`). -/
def VFields.allUnexported : VFields → Bool
  | .fnil => true
  | .fcons nm _ rest => !isExported nm && rest.allUnexported

/-- Model of `isFullyNonExportedStruct`: a struct none of whose fields is
exported; `false` on any non-struct value. -/
def isFullyNonExportedStruct : GoVal → Bool
  | .structV _ fs => fs.allUnexported
  | _ => false

/-! Model of `fmt.Sprint` on the modelled universe, as used by `isEqual` to
compare structs without exported fields.  Ints and uints print in decimal,
strings print raw, bools print `true` / `false`, structs print their field
values between braces separated by spaces, slices print between square
brackets, a nil pointer prints `<nil>` and a non-nil pointer to a struct
prints `&` followed by the pointee (pointers to non-composite values print
a machine address in Go, which has no deterministic model; the claims never
exercise that corner).  Floating point values print their exact
`num/den` form — an injective stand-in for Go's shortest-round-trip float
formatting, which is likewise injective on float64.  Map entries print
sorted by key as `fmt` does (bytewise key order; identical to
codepoint order on the ASCII keys modelled here). -/

/-- Bytewise string order, modelling Go's `<` on the `string` type. -/
def charListLt : List Char → List Char → Bool
  | [], [] => false
  | [], _ :: _ => true
  | _ :: _, [] => false
  | c :: cs, d :: ds => Nat.blt c.toNat d.toNat || (c.toNat == d.toNat && charListLt cs ds)

/-- Insert into a key-sorted association list. -/
def insertSorted {α : Type} (p : String × α) : List (String × α) → List (String × α)
  | [] => [p]
  | q :: rest =>
      if charListLt p.1.data q.1.data then p :: q :: rest else q :: insertSorted p rest

/-- Sort an association list by key (insertion sort; Go map keys are
unique, so ties never arise). -/
def sortByKey {α : Type} (l : List (String × α)) : List (String × α) :=
  l.foldr insertSorted []

/-- Join printed map entries as `fmt` does: `k:v` separated by spaces. -/
def joinEntries : List (String × String) → String
  | [] => ""
  | [(k, s)] => k ++ ":" ++ s
  | (k, s) :: rest => k ++ ":" ++ s ++ " " ++ joinEntries rest

mutual

def goSprint : GoVal → String
  | .intV i => Int.repr i
  | .uintV u => Nat.repr u
  | .floatV f => Int.repr f.num ++ "/" ++ Nat.repr f.den
  | .strV s => s
  | .boolV b => if b then "true" else "false"
  | .nilPtrV _ => "<nil>"
  | .ptrV _ v => "&" ++ goSprint v
  | .sliceV _ es => "[" ++ sprintElems es ++ "]"
  | .mapV _ entries => "map[" ++ joinEntries (sortByKey (sprintEntryPairs entries)) ++ "]"
  | .structV _ fs => "\x7b" ++ sprintFields fs ++ "\x7d"

def sprintFields : VFields → String
  | .fnil => ""
  | .fcons _ v .fnil => goSprint v
  | .fcons _ v rest => goSprint v ++ " " ++ sprintFields rest

def sprintElems : VElems → String
  | .enil => ""
  | .econs v .enil => goSprint v
  | .econs v rest => goSprint v ++ " " ++ sprintElems rest

def sprintEntryPairs : VFields → List (String × String)
  | .fnil => []
  | .fcons k v rest => (k, goSprint v) :: sprintEntryPairs rest

end

/-- Model of `isEqual` (src/diff/diff.go lines 282-289): the two values are
turned into strings with `fmt.Sprint` and compared as strings. -/
def isEqual (x y : GoVal) : Bool := goSprint x == goSprint y

/-! Delta model: `Diff`, `ChangeType` and `Change` from src/diff/diff.go.
In Go a `Diff` is `map[string]interface{}` and `Change`'s payload fields
are `interface{}`; at runtime the engine stores in those slots either a
`Change`, a nested `Diff` (from `compareStructs`), a `map[string]Change`
(from `compareSlices`), or a plain Go value.  `DVal` is the corresponding
sum; `DEntries` / `CEntries` are the two map payloads as association lists
in insertion order (Go map iteration order is unordered and irrelevant to
every property proved here), and `OptDVal` is an optional `DVal` (the
`interface{}` slot `Val`, `none` when the field is left nil). -/

inductive ChangeType where
  | addT
  | delT
  | modT
  deriving DecidableEq

/-- The JSON tag of a `ChangeType` ("ADD" / "DEL" / "MOD"). -/
def ChangeType.tag : ChangeType → String
  | .addT => "ADD"
  | .delT => "DEL"
  | .modT => "MOD"

mutual

inductive Change where
  | mk (oldVal : Option GoVal) (newVal : Option GoVal) (val : OptDVal)
      (typ : ChangeType)
  deriving DecidableEq

inductive DVal where
  | ch (c : Change)
  | diffMap (entries : DEntries)
  | changeMap (entries : CEntries)
  deriving DecidableEq

inductive OptDVal where
  | noneD
  | someD (d : DVal)
  deriving DecidableEq

inductive DEntries where
  | dnil
  | dcons (k : String) (d : DVal) (rest : DEntries)
  deriving DecidableEq

inductive CEntries where
  | cnil
  | ccons (k : String) (c : Change) (rest : CEntries)
  deriving DecidableEq

end

def Change.oldVal : Change → Option GoVal
  | .mk o _ _ _ => o

def Change.newVal : Change → Option GoVal
  | .mk _ n _ _ => n

def Change.val : Change → OptDVal
  | .mk _ _ v _ => v

def Change.typ : Change → ChangeType
  | .mk _ _ _ t => t

/-- A computed delta: the engine's `Diff` value. -/
abbrev Diff := DEntries

/-- Entries of a struct-level delta as an ordinary association list (used
to state properties). -/
def DEntries.toList : DEntries → List (String × DVal)
  | .dnil => []
  | .dcons k d rest => (k, d) :: rest.toList

/-- Lookup in a struct-level delta. -/
def DEntries.lookup : DEntries → String → Option DVal
  | .dnil, _ => none
  | .dcons k d rest, key => if k == key then some d else rest.lookup key

/-- Number of entries. -/
def DEntries.size : DEntries → Nat
  | .dnil => 0
  | .dcons _ _ rest => 1 + rest.size

/-- Model of `Diff.HasChange`: the delta contains at least one entry. -/
def Diff.HasChange (d : Diff) : Bool := decide (0 < d.size)

/-- Entries of a sequence-level change map as an ordinary list. -/
def CEntries.toList : CEntries → List (String × Change)
  | .cnil => []
  | .ccons k c rest => (k, c) :: rest.toList

/-- Lookup in a sequence-level change map. -/
def CEntries.lookup : CEntries → String → Option Change
  | .cnil, _ => none
  | .ccons k c rest, key => if k == key then some c else rest.lookup key

/-- Concatenation of change-map fragments. -/
def CEntries.append : CEntries → CEntries → CEntries
  | .cnil, cs => cs
  | .ccons k c rest, cs => .ccons k c (rest.append cs)

/-- Discriminator used to state claims about the shape of a delta entry. -/
def DVal.isChangeEntry : DVal → Bool
  | .ch _ => true
  | _ => false

/-! The comparison engine (src/diff/diff.go lines 18-253). -/

/-- The `Tolerance` constant used to compare floating point numbers: the
source's literal `0.000001` as an exact rational. -/
def Tolerance : ℚ := 1 / 1000000

/-- The source's float comparison `math.Abs(flx-fly) > Tolerance` over the
exact values `x.num/x.den` and `y.num/y.den`, computed by cross
multiplication: `|xn*yd - yn*xd| * 1000000 > xd*yd`.  The lemma
`floatAbsDiffGtTol_iff` proves this equal to `|x - y| > Tolerance` over
`ℚ`. -/
def floatAbsDiffGtTol (x y : Flt) : Bool :=
  decide (x.den * y.den < (x.num * y.den - y.num * x.den).natAbs * 1000000)

/-- Model of `Engine`: the exclusion configuration (`MaxDepth` is declared
but, as in the source, never read). -/
structure Engine where
  ExcludeFieldList : List String
  MaxDepth : Int
  deriving DecidableEq

/-- The zero `Engine{}` used by the package-level `Compute`. -/
def defaultEngine : Engine := Engine.mk [] 0

/-- Model of `Engine.IsIgnored` (lines 80-88): linear scan of the exclusion
list. -/
def Engine.IsIgnored (e : Engine) (field : String) : Bool :=
  e.ExcludeFieldList.contains field

/-- The field of the given name in a struct value, used to model
`fy.FieldByName(typ.Name)` on the second value of a comparison (on a
non-struct the Go code would panic; the engine only reaches it with
same-typed inputs, where `fy` is a struct with the field present). -/
def fieldByName (v : GoVal) (nm : String) : Option GoVal :=
  match v with
  | .structV _ gs => gs.lookup nm
  | _ => none

/-- The element list of a slice/array value, modelling `fy.Len`/`fy.Index`
(same unreachability note as `fieldByName` for non-slices). -/
def elemsOf (v : GoVal) : VElems :=
  match v with
  | .sliceV _ es => es
  | _ => .enil

/-- The pointee of a pointer value (`IsNil`/`Elem`; same unreachability
note as `fieldByName` for non-pointers). -/
def ptrPointee (v : GoVal) : Option GoVal :=
  match v with
  | .nilPtrV _ => none
  | .ptrV _ p => some p
  | _ => none

/-- The `ADD` entries built by `compareSlices` for `new` elements `vs`
starting at index `i` (keys are `strconv.Itoa` of the index). -/
def addEntriesFrom : VElems → Nat → CEntries
  | .enil, _ => .cnil
  | .econs v rest, i =>
      .ccons (Nat.repr i) (.mk none (some v) .noneD .addT) (addEntriesFrom rest (i + 1))

/-- The `DEL` entries built by `compareSlices` for `old` elements `vs`
starting at index `i`. -/
def delEntriesFrom : VElems → Nat → CEntries
  | .enil, _ => .cnil
  | .econs v rest, i =>
      .ccons (Nat.repr i) (.mk (some v) none .noneD .delT) (delEntriesFrom rest (i + 1))

/-- The `DEL`/`ADD` tail built by `compareSlices` for the longer side when
both slices are nonempty (lines 229-242: the loops guarded by
`xLen > yLen` and `xLen < yLen`). -/
def tailEntries (xs ys : VElems) : CEntries :=
  if ys.size < xs.size then delEntriesFrom (xs.drop ys.size) ys.size
  else if xs.size < ys.size then addEntriesFrom (ys.drop xs.size) xs.size
  else .cnil

mutual

/-- Model of `Engine.compareValues` (lines 130-181): per-kind dispatch on
the first value.  Map values are unsupported (`nil` in the source, a marked
TODO); booleans (and any other kind without a case) fall through the switch
to the final `return nil`.  On basic kinds the source reads the same kind
out of `fy` (`fy.Int()` etc.), which panics on a differently-kinded value;
that is unreachable for the same-typed values the engine traverses and is
modelled as `noneD`.  The bodies of `compareStructs` and `compareSlices`
are inlined at the struct and slice cases so that every recursive call is
on a structural subterm; the definitions `Engine.compareStructs` and
`Engine.compareSlices` below restate them under the source's names and are
proved to agree. -/
def Engine.compareValues (e : Engine) (fx fy : GoVal) : OptDVal :=
  match fx with
  | .structV n fs =>
      if isFullyNonExportedStruct (.structV n fs) then
        if !isEqual (.structV n fs) fy then
          .someD (.ch (.mk (some (.structV n fs)) (some fy) .noneD .modT))
        else .noneD
      else
        match e.fieldsDiff fs fy with
        | .dnil => .noneD
        | es => .someD (.diffMap es)
  | .sliceV _ xs =>
      match xs, elemsOf fy with
      | .enil, .enil => .noneD
      | .enil, .econs y ys2 => .someD (.changeMap (addEntriesFrom (.econs y ys2) 0))
      | .econs x xs2, .enil => .someD (.changeMap (delEntriesFrom (.econs x xs2) 0))
      | .econs _ _, .econs _ _ =>
          match (e.elemsDiff xs (elemsOf fy) 0).append (tailEntries xs (elemsOf fy)) with
          | .cnil => .noneD
          | cs => .someD (.changeMap cs)
  | .mapV _ _ => .noneD
  | .nilPtrV _ =>
      match ptrPointee fy with
      | none => .noneD
      | some vy => .someD (.ch (.mk none (some vy) .noneD .modT))
  | .ptrV _ vx =>
      match ptrPointee fy with
      | none => .someD (.ch (.mk (some vx) none .noneD .modT))
      | some vy => e.compareValues vx vy
  | .intV ix =>
      match fy with
      | .intV iy =>
          if ix != iy then
            .someD (.ch (.mk (some (.intV ix)) (some (.intV iy)) .noneD .modT))
          else .noneD
      | _ => .noneD
  | .uintV ux =>
      match fy with
      | .uintV uy =>
          if ux != uy then
            .someD (.ch (.mk (some (.uintV ux)) (some (.uintV uy)) .noneD .modT))
          else .noneD
      | _ => .noneD
  | .floatV qx =>
      match fy with
      | .floatV qy =>
          if floatAbsDiffGtTol qx qy then
            .someD (.ch (.mk (some (.floatV qx)) (some (.floatV qy)) .noneD .modT))
          else .noneD
      | _ => .noneD
  | .strV sx =>
      match fy with
      | .strV sy =>
          if sx != sy then
            .someD (.ch (.mk (some (.strV sx)) (some (.strV sy)) .noneD .modT))
          else .noneD
      | _ => .noneD
  | .boolV _ => .noneD

/-- The shared field loop of `Engine.Compute` (lines 111-125) and
`Engine.compareStructs` (lines 193-207): skip non-exported and excluded
fields, look the field up in `fy` by name, compare, and record nonempty
results under the field name (`delta[typ.Name] = d`). -/
def Engine.fieldsDiff (e : Engine) (fs : VFields) (fy : GoVal) : DEntries :=
  match fs with
  | .fnil => .dnil
  | .fcons nm vx rest =>
      if isExported nm && !(e.IsIgnored nm) then
        match fieldByName fy nm with
        | some vy =>
            match e.compareValues vx vy with
            | .someD d => .dcons nm d (e.fieldsDiff rest fy)
            | .noneD => e.fieldsDiff rest fy
        | none => e.fieldsDiff rest fy
      else e.fieldsDiff rest fy

/-- The `MOD` entries of `compareSlices` (lines 243-247): for each index
below both lengths, recursively compare the elements and wrap a nonempty
result as the `value` payload of a `MOD` change keyed by the stringified
index. -/
def Engine.elemsDiff (e : Engine) (xs ys : VElems) (i : Nat) : CEntries :=
  match xs, ys with
  | .enil, _ => .cnil
  | _, .enil => .cnil
  | .econs x xs2, .econs y ys2 =>
      match e.compareValues x y with
      | .someD d =>
          .ccons (Nat.repr i) (.mk none none (.someD d) .modT) (e.elemsDiff xs2 ys2 (i + 1))
      | .noneD => e.elemsDiff xs2 ys2 (i + 1)

end

/-- Model of `Engine.compareStructs` (lines 183-212) under its source name.
A fully non-exported struct falls back to whole-value string comparison;
otherwise the struct is traversed field-by-field and a nonempty field delta
is returned directly (a `Diff` stored in the `interface{}` slot — not
wrapped in a `Change`).  `compareValues_structV` proves that the struct
case of `compareValues` is exactly this function. -/
def Engine.compareStructs (e : Engine) (fx fy : GoVal) : OptDVal :=
  match fx with
  | .structV n fs =>
      if isFullyNonExportedStruct (.structV n fs) then
        if !isEqual (.structV n fs) fy then
          .someD (.ch (.mk (some (.structV n fs)) (some fy) .noneD .modT))
        else .noneD
      else
        match e.fieldsDiff fs fy with
        | .dnil => .noneD
        | es => .someD (.diffMap es)
  | _ => .noneD

/-- The `changes` map built by `compareSlices` when both slices are
nonempty: element-wise `MOD` entries followed by the `DEL`/`ADD` tail for
the longer side (the Go map is unordered; the model keeps the `MOD`
entries first). -/
def Engine.sliceChanges (e : Engine) (xs ys : VElems) : CEntries :=
  (e.elemsDiff xs ys 0).append (tailEntries xs ys)

/-- Model of `Engine.compareSlices` (lines 214-253) under its source name
(the `map[string]Change` it returns is stored directly in the
`interface{}` slot, modelled as `DVal.changeMap`).  `compareValues_sliceV`
proves that the slice case of `compareValues` is exactly this function
applied to the two element lists. -/
def Engine.compareSlices (e : Engine) (xs ys : VElems) : OptDVal :=
  match xs, ys with
  | .enil, .enil => .noneD
  | .enil, .econs y ys2 => .someD (.changeMap (addEntriesFrom (.econs y ys2) 0))
  | .econs x xs2, .enil => .someD (.changeMap (delEntriesFrom (.econs x xs2) 0))
  | .econs _ _, .econs _ _ =>
      match e.sliceChanges xs ys with
      | .cnil => .noneD
      | cs => .someD (.changeMap cs)

/-- Errors surfaced by `Engine.Compute`: `errors.New("input objects do not
share the same type")` and `errors.New("input values are not struct")`,
named after the spec's taxonomy. -/
inductive CompareError where
  | typeMismatch
  | notARecord
  deriving DecidableEq

/-- The outcome of a call to `Engine.Compute`.  `panicked` models a Go
runtime panic (reachable only when an argument is the untyped nil
interface, on which `reflect.Value.Type` panics). -/
inductive ComputeResult where
  | ok (delta : Diff)
  | err (e : CompareError)
  | panicked
  deriving DecidableEq

/-- Model of `Engine.Compute` (lines 94-128).  Arguments are `interface{}`
values: `none` models the untyped nil interface, whose `reflect.ValueOf`
is the zero `Value`; calling `Type` on it (line 96) panics before any
error can be produced.  Otherwise the type check, the struct-kind check
and the exported-field loop run in source order. -/
def Engine.Compute (e : Engine) (x y : Option GoVal) : ComputeResult :=
  match x, y with
  | none, _ => .panicked
  | _, none => .panicked
  | some vx, some vy =>
      if !assignableTo (typeOf vx) (typeOf vy) then .err .typeMismatch
      else
        match vx with
        | .structV _ fs => .ok (e.fieldsDiff fs vy)
        | _ => .err .notARecord

/-- Model of the package-level `Compute` (lines 67-72):
`Engine{}.Compute(x, y)`. -/
def Compute (x y : Option GoVal) : ComputeResult :=
  defaultEngine.Compute x y

/-! Further definitions used to state and settle the claims. -/

/-- The field at position `i` (reflection's `vx.Field(i)` / `tx.Field(i)`). -/
def VFields.getIdx? : VFields → Nat → Option (String × GoVal)
  | .fnil, _ => none
  | .fcons nm v _, 0 => some (nm, v)
  | .fcons _ _ rest, i + 1 => rest.getIdx? i

/-- Replace the value of the field at position `i`, keeping its name. -/
def VFields.setVal : VFields → Nat → GoVal → VFields
  | .fnil, _, _ => .fnil
  | .fcons nm _ rest, 0, w => .fcons nm w rest
  | .fcons nm v rest, i + 1, w => .fcons nm v (rest.setVal i w)

/-- The exact rational value of a modelled float. -/
def Flt.toRat (f : Flt) : ℚ := (f.num : ℚ) / (f.den : ℚ)

/-- `OptDVal` as an ordinary option. -/
def OptDVal.toOption : OptDVal → Option DVal
  | .noneD => none
  | .someD d => some d

/-! Absence of a field key in a delta, at every nesting depth.  Keys of
`changeMap` nodes are stringified sequence indices, not field names, so
they are not field entries; the predicate still descends into the nested
payloads below them. -/

mutual

def DVal.noKey (bad : String) : DVal → Bool
  | .ch (.mk _ _ v _) => OptDVal.noKeyO bad v
  | .diffMap es => DEntries.noKeyD bad es
  | .changeMap es => CEntries.noKeyC bad es

def OptDVal.noKeyO (bad : String) : OptDVal → Bool
  | .noneD => true
  | .someD d => DVal.noKey bad d

def DEntries.noKeyD (bad : String) : DEntries → Bool
  | .dnil => true
  | .dcons k d rest => !(k == bad) && DVal.noKey bad d && DEntries.noKeyD bad rest

def CEntries.noKeyC (bad : String) : CEntries → Bool
  | .cnil => true
  | .ccons _ (.mk _ _ v _) rest => OptDVal.noKeyO bad v && CEntries.noKeyC bad rest

end

/-! Model of the JSON rendering (`Diff.JSON` / `Diff.PrettyJSON`, lines
29-46) as a generic tree: both serializers marshal the same tree, compact
and indented printing being presentation options over it.  `encoding/json`
marshals a `Change` as an object whose keys follow the struct's field
order, each tagged `omitempty`: a key appears exactly when the
`interface{}` slot is non-nil (the engine stores non-nil payloads for
every populated model field, so `Option.isSome` / `OptDVal.someD` decides
presence).  A struct marshals its exported fields in declaration order, a
map marshals its entries sorted by key, a nil pointer marshals as `null`
and a non-nil pointer as its pointee; numbers render exactly (`numJ num
den` is the rational `num/den`, with integers over denominator 1). -/

mutual

inductive Json where
  | nullJ
  | boolJ (b : Bool)
  | numJ (num : Int) (den : Nat)
  | strJ (s : String)
  | arrJ (elems : JElems)
  | objJ (entries : JEntries)
  deriving DecidableEq

inductive JElems where
  | jenil
  | jecons (j : Json) (rest : JElems)
  deriving DecidableEq

inductive JEntries where
  | jnil
  | jcons (k : String) (j : Json) (rest : JEntries)
  deriving DecidableEq

end

/-- The keys of an object's entry list, in order. -/
def JEntries.keys : JEntries → List String
  | .jnil => []
  | .jcons k _ rest => k :: rest.keys

/-- Object entries as an ordinary association list. -/
def JEntries.toList : JEntries → List (String × Json)
  | .jnil => []
  | .jcons k j rest => (k, j) :: rest.toList

/-- Build object entries from an association list. -/
def toJEntries : List (String × Json) → JEntries
  | [] => .jnil
  | (k, j) :: rest => .jcons k j (toJEntries rest)

/-- Lookup among object entries. -/
def JEntries.lookup : JEntries → String → Option Json
  | .jnil, _ => none
  | .jcons k j rest, key => if k == key then some j else rest.lookup key

/-- The keys of a rendered object (empty for non-objects). -/
def Json.objKeys : Json → List String
  | .objJ es => es.keys
  | _ => []

/-- The entries of a rendered object (empty for non-objects). -/
def Json.objEntries : Json → JEntries
  | .objJ es => es
  | _ => .jnil

mutual

/-- Marshalling of a plain Go value (payloads stored in `old_value` /
`new_value` slots). -/
def jsonOfGoVal : GoVal → Json
  | .intV i => .numJ i 1
  | .uintV u => .numJ u 1
  | .floatV f => .numJ f.num f.den
  | .strV s => .strJ s
  | .boolV b => .boolJ b
  | .nilPtrV _ => .nullJ
  | .ptrV _ v => jsonOfGoVal v
  | .sliceV _ es => .arrJ (jsonElems es)
  | .mapV _ entries => .objJ (toJEntries (sortByKey (jsonPairs entries)))
  | .structV _ fs => .objJ (jsonExportedFields fs)

def jsonElems : VElems → JElems
  | .enil => .jenil
  | .econs v rest => .jecons (jsonOfGoVal v) (jsonElems rest)

def jsonPairs : VFields → List (String × Json)
  | .fnil => []
  | .fcons k v rest => (k, jsonOfGoVal v) :: jsonPairs rest

def jsonExportedFields : VFields → JEntries
  | .fnil => .jnil
  | .fcons nm v rest =>
      if isExported nm then .jcons nm (jsonOfGoVal v) (jsonExportedFields rest)
      else jsonExportedFields rest

end

/-- An optional Go-value payload slot under `omitempty`: present exactly
when populated. -/
def goValEntry (k : String) (o : Option GoVal) (rest : JEntries) : JEntries :=
  match o with
  | some v => .jcons k (jsonOfGoVal v) rest
  | none => rest

mutual

/-- Marshalling of a `Change`: keys `old_value`, `new_value`, `value`,
`type` in struct order, each omitted when its slot is nil. -/
def jsonOfChange : Change → Json
  | .mk o n v t =>
      .objJ (goValEntry "old_value" o
        (goValEntry "new_value" n
          (valEntry v (.jcons "type" (.strJ t.tag) .jnil))))

/-- The optional `value` slot under `omitempty`. -/
def valEntry : OptDVal → JEntries → JEntries
  | .noneD, rest => rest
  | .someD d, rest => .jcons "value" (jsonOfDVal d) rest

/-- Marshalling of an `interface{}` delta payload. -/
def jsonOfDVal : DVal → Json
  | .ch c => jsonOfChange c
  | .diffMap es => .objJ (toJEntries (sortByKey (jsonDiffPairs es)))
  | .changeMap es => .objJ (toJEntries (sortByKey (jsonChangePairs es)))

def jsonDiffPairs : DEntries → List (String × Json)
  | .dnil => []
  | .dcons k d rest => (k, jsonOfDVal d) :: jsonDiffPairs rest

def jsonChangePairs : CEntries → List (String × Json)
  | .cnil => []
  | .ccons k c rest => (k, jsonOfChange c) :: jsonChangePairs rest

end

/-- The rendered tree of a whole `Diff` (what `Diff.JSON` serializes: a Go
map, marshalled with sorted keys). -/
def Diff.JSONTree (d : Diff) : Json :=
  .objJ (toJEntries (sortByKey (jsonDiffPairs d)))

/-! Collector of every `Change` entry reachable in a delta, through nested
payloads. -/

mutual

def DVal.changesIn : DVal → List Change
  | .ch (.mk o n v t) => (.mk o n v t) :: OptDVal.changesInO v
  | .diffMap es => DEntries.changesInD es
  | .changeMap es => CEntries.changesInC es

def OptDVal.changesInO : OptDVal → List Change
  | .noneD => []
  | .someD d => d.changesIn

def DEntries.changesInD : DEntries → List Change
  | .dnil => []
  | .dcons _ d rest => d.changesIn ++ DEntries.changesInD rest

def CEntries.changesInC : CEntries → List Change
  | .cnil => []
  | .ccons _ (.mk o n v t) rest =>
      (.mk o n v t) :: (OptDVal.changesInO v ++ CEntries.changesInC rest)

end

/-- The object keys that marshalling must produce for a `Change`: exactly
the populated slots among `old_value`, `new_value`, `value`, then the
always-set `type` tag. -/
def changeJsonKeys : Change → List String
  | .mk o n v _ =>
      (match o with | some _ => ["old_value"] | none => []) ++
      (match n with | some _ => ["new_value"] | none => []) ++
      (match v with | .someD _ => ["value"] | .noneD => []) ++ ["type"]

/-- The struct case of `compareValues` is `compareStructs`, as in the
source. -/
theorem compareValues_structV (e : Engine) (n : String) (fs : VFields) (fy : GoVal) :
    e.compareValues (.structV n fs) fy = e.compareStructs (.structV n fs) fy := rfl

/-- The slice case of `compareValues` is `compareSlices` on the element
lists, as in the source. -/
theorem compareValues_sliceV (e : Engine) (t : GoTy) (xs : VElems) (fy : GoVal) :
    e.compareValues (.sliceV t xs) fy = e.compareSlices xs (elemsOf fy) := by
  show (match xs, elemsOf fy with
    | .enil, .enil => OptDVal.noneD
    | .enil, .econs y ys2 => .someD (.changeMap (addEntriesFrom (.econs y ys2) 0))
    | .econs x xs2, .enil => .someD (.changeMap (delEntriesFrom (.econs x xs2) 0))
    | .econs _ _, .econs _ _ =>
        match (e.elemsDiff xs (elemsOf fy) 0).append (tailEntries xs (elemsOf fy)) with
        | .cnil => .noneD
        | cs => .someD (.changeMap cs)) = e.compareSlices xs (elemsOf fy)
  cases xs <;> cases elemsOf fy <;> rfl

/-! Well-formedness: every struct level has pairwise distinct field names,
as any value of a Go struct type does (a Go struct type cannot declare the
same field name twice). -/

mutual

def WFV : GoVal → Bool
  | .intV _ => true
  | .uintV _ => true
  | .floatV _ => true
  | .strV _ => true
  | .boolV _ => true
  | .nilPtrV _ => true
  | .ptrV _ v => WFV v
  | .sliceV _ es => WFElems es
  | .mapV _ entries => WFFields entries
  | .structV _ fs => fs.nodupKeys && WFFields fs

def WFFields : VFields → Bool
  | .fnil => true
  | .fcons _ v rest => WFV v && WFFields rest

def WFElems : VElems → Bool
  | .enil => true
  | .econs v rest => WFV v && WFElems rest

end

/-! Association-list lemmas on `VFields`. -/

theorem VFields.hasKey_of_mem : ∀ {fs : VFields} {nm : String} {v : GoVal},
    (nm, v) ∈ fs.toList → fs.hasKey nm = true
  | .fcons nm2 v2 rest, nm, v, h => by
      rw [VFields.hasKey]
      rcases List.mem_cons.mp h with h1 | h1
      · cases h1
        simp
      · rw [VFields.hasKey_of_mem h1]
        simp

theorem VFields.lookup_of_mem : ∀ {fs : VFields} {nm : String} {v : GoVal},
    fs.nodupKeys = true → (nm, v) ∈ fs.toList → fs.lookup nm = some v
  | .fcons nm2 v2 rest, nm, v, hnd, h => by
      rw [VFields.nodupKeys, Bool.and_eq_true, Bool.not_eq_true'] at hnd
      rw [VFields.lookup]
      rcases List.mem_cons.mp h with h1 | h1
      · cases h1
        simp
      · have hne : (nm2 == nm) = false := by
          by_contra hb
          rw [Bool.not_eq_false, beq_iff_eq] at hb
          subst hb
          rw [VFields.hasKey_of_mem h1] at hnd
          exact Bool.true_eq_false ▸ hnd.1
        rw [hne]
        exact VFields.lookup_of_mem hnd.2 h1

theorem VFields.lookup_eq_none_of_not_hasKey : ∀ {fs : VFields} {nm : String},
    fs.hasKey nm = false → fs.lookup nm = none
  | .fnil, _, _ => rfl
  | .fcons nm2 v2 rest, nm, h => by
      rw [VFields.hasKey, Bool.or_eq_false_iff] at h
      rw [VFields.lookup, h.1]
      exact VFields.lookup_eq_none_of_not_hasKey h.2
      
theorem WFFields.wfv_of_mem : ∀ {fs : VFields} {nm : String} {v : GoVal},
    WFFields fs = true → (nm, v) ∈ fs.toList → WFV v = true
  | .fcons nm2 v2 rest, nm, v, hwf, h => by
      rw [WFFields, Bool.and_eq_true] at hwf
      rcases List.mem_cons.mp h with h1 | h1
      · cases h1
        exact hwf.1
      · exact WFFields.wfv_of_mem hwf.2 h1

/-- Any type is assignable to itself. -/
theorem assignableTo_self (t : GoTy) : assignableTo t t = true := by
  cases t <;> simp [assignableTo]

/-! Unfolding lemmas for the engine, all definitional (`rfl`): the stable
rewriting interface to the mutual recursion. -/

theorem compareValues_intV (e : Engine) (ix : Int) (fy : GoVal) :
    e.compareValues (.intV ix) fy =
      (match fy with
       | .intV iy =>
           if ix != iy then
             .someD (.ch (.mk (some (.intV ix)) (some (.intV iy)) .noneD .modT))
           else .noneD
       | _ => .noneD) := rfl

theorem compareValues_uintV (e : Engine) (ux : Nat) (fy : GoVal) :
    e.compareValues (.uintV ux) fy =
      (match fy with
       | .uintV uy =>
           if ux != uy then
             .someD (.ch (.mk (some (.uintV ux)) (some (.uintV uy)) .noneD .modT))
           else .noneD
       | _ => .noneD) := rfl

theorem compareValues_floatV (e : Engine) (qx : Flt) (fy : GoVal) :
    e.compareValues (.floatV qx) fy =
      (match fy with
       | .floatV qy =>
           if floatAbsDiffGtTol qx qy then
             .someD (.ch (.mk (some (.floatV qx)) (some (.floatV qy)) .noneD .modT))
           else .noneD
       | _ => .noneD) := rfl

theorem compareValues_strV (e : Engine) (sx : String) (fy : GoVal) :
    e.compareValues (.strV sx) fy =
      (match fy with
       | .strV sy =>
           if sx != sy then
             .someD (.ch (.mk (some (.strV sx)) (some (.strV sy)) .noneD .modT))
           else .noneD
       | _ => .noneD) := rfl

theorem compareValues_boolV (e : Engine) (b : Bool) (fy : GoVal) :
    e.compareValues (.boolV b) fy = .noneD := rfl

theorem compareValues_mapV (e : Engine) (t : GoTy) (entries : VFields) (fy : GoVal) :
    e.compareValues (.mapV t entries) fy = .noneD := rfl

theorem compareValues_nilPtrV (e : Engine) (t : GoTy) (fy : GoVal) :
    e.compareValues (.nilPtrV t) fy =
      (match ptrPointee fy with
       | none => .noneD
       | some vy => .someD (.ch (.mk none (some vy) .noneD .modT))) := rfl

theorem compareValues_ptrV (e : Engine) (t : GoTy) (vx : GoVal) (fy : GoVal) :
    e.compareValues (.ptrV t vx) fy =
      (match ptrPointee fy with
       | none => .someD (.ch (.mk (some vx) none .noneD .modT))
       | some vy => e.compareValues vx vy) := rfl

theorem fieldsDiff_fnil (e : Engine) (fy : GoVal) : e.fieldsDiff .fnil fy = .dnil := rfl

theorem fieldsDiff_fcons (e : Engine) (nm : String) (vx : GoVal) (rest : VFields)
    (fy : GoVal) :
    e.fieldsDiff (.fcons nm vx rest) fy =
      (if isExported nm && !(e.IsIgnored nm) then
        match fieldByName fy nm with
        | some vy =>
            match e.compareValues vx vy with
            | .someD d => .dcons nm d (e.fieldsDiff rest fy)
            | .noneD => e.fieldsDiff rest fy
        | none => e.fieldsDiff rest fy
      else e.fieldsDiff rest fy) := rfl

theorem elemsDiff_enil_left (e : Engine) (ys : VElems) (i : Nat) :
    e.elemsDiff .enil ys i = .cnil := by cases ys <;> rfl

theorem elemsDiff_enil_right (e : Engine) (xs : VElems) (i : Nat) :
    e.elemsDiff xs .enil i = .cnil := by cases xs <;> rfl

theorem elemsDiff_econs (e : Engine) (x : GoVal) (xs2 : VElems) (y : GoVal)
    (ys2 : VElems) (i : Nat) :
    e.elemsDiff (.econs x xs2) (.econs y ys2) i =
      (match e.compareValues x y with
       | .someD d =>
           .ccons (Nat.repr i) (.mk none none (.someD d) .modT) (e.elemsDiff xs2 ys2 (i + 1))
       | .noneD => e.elemsDiff xs2 ys2 (i + 1)) := rfl

/-! Reflexivity of the engine: comparing any well-formed value against
itself yields no difference at every level of the recursion. -/

theorem isEqual_self (x : GoVal) : isEqual x x = true := by
  simp [isEqual]

theorem cnil_append (cs : CEntries) : (CEntries.cnil).append cs = cs := rfl

theorem tailEntries_self (xs : VElems) : tailEntries xs xs = .cnil := by
  simp [tailEntries]

theorem floatAbsDiffGtTol_self (f : Flt) : floatAbsDiffGtTol f f = false := by
  simp [floatAbsDiffGtTol]

mutual

theorem cv_self (e : Engine) : ∀ (v : GoVal), WFV v = true → e.compareValues v v = .noneD
  | .intV ix, _ => by simp [compareValues_intV]
  | .uintV ux, _ => by simp [compareValues_uintV]
  | .floatV f, _ => by simp [compareValues_floatV, floatAbsDiffGtTol_self]
  | .strV sx, _ => by simp [compareValues_strV]
  | .boolV b, _ => by simp [compareValues_boolV]
  | .nilPtrV t, _ => by simp [compareValues_nilPtrV, ptrPointee]
  | .ptrV t v, h => by
      rw [WFV] at h
      rw [compareValues_ptrV]
      exact cv_self e v h
  | .mapV t entries, _ => by simp [compareValues_mapV]
  | .sliceV t xs, h => by
      rw [WFV] at h
      rw [compareValues_sliceV]
      rw [show elemsOf (GoVal.sliceV t xs) = xs from rfl]
      cases xs with
      | enil => rfl
      | econs x rest =>
          have hsc : e.sliceChanges (.econs x rest) (.econs x rest) = .cnil := by
            rw [Engine.sliceChanges, ed_self e (.econs x rest) 0 h, tailEntries_self]
            rfl
          rw [Engine.compareSlices, hsc]
  | .structV n fs, h => by
      rw [WFV, Bool.and_eq_true] at h
      rw [compareValues_structV, Engine.compareStructs]
      by_cases hu : VFields.allUnexported fs = true
      · simp [isFullyNonExportedStruct, hu, isEqual_self]
      · have hd : e.fieldsDiff fs (.structV n fs) = .dnil :=
          fd_self e fs n fs (fun p hp =>
            ⟨VFields.lookup_of_mem h.1 hp, WFFields.wfv_of_mem h.2 hp⟩)
        simp [isFullyNonExportedStruct, hu, hd]
  termination_by v => sizeOf v

theorem fd_self (e : Engine) : ∀ (fs : VFields) (n : String) (full : VFields),
    (∀ p ∈ fs.toList, full.lookup p.1 = some p.2 ∧ WFV p.2 = true) →
    e.fieldsDiff fs (.structV n full) = .dnil
  | .fnil, _, _, _ => rfl
  | .fcons nm vx rest, n, full, h => by
      have hh1 : full.lookup nm = some vx := (h (nm, vx) (List.mem_cons_self _ _)).1
      have hh2 : WFV vx = true := (h (nm, vx) (List.mem_cons_self _ _)).2
      have ht : ∀ p ∈ rest.toList, full.lookup p.1 = some p.2 ∧ WFV p.2 = true :=
        fun p hp => h p (List.mem_cons_of_mem _ hp)
      rw [fieldsDiff_fcons]
      by_cases hc : (isExported nm && !(e.IsIgnored nm)) = true
      · rw [if_pos hc]
        simp only [show fieldByName (.structV n full) nm = full.lookup nm from rfl, hh1]
        rw [cv_self e vx hh2]
        exact fd_self e rest n full ht
      · rw [if_neg hc]
        exact fd_self e rest n full ht
  termination_by fs => sizeOf fs

theorem ed_self (e : Engine) : ∀ (xs : VElems) (i : Nat), WFElems xs = true →
    e.elemsDiff xs xs i = .cnil
  | .enil, _, _ => rfl
  | .econs x rest, i, h => by
      rw [WFElems, Bool.and_eq_true] at h
      rw [elemsDiff_econs, cv_self e x h.1]
      exact ed_self e rest (i + 1) h.2
  termination_by xs => sizeOf xs

end

/-! Unfolding lemmas for `Compute`. -/

theorem Compute_def (x y : Option GoVal) : Compute x y = defaultEngine.Compute x y := rfl

theorem Engine.Compute_some (e : Engine) (x y : GoVal) :
    e.Compute (some x) (some y) =
      (if !assignableTo (typeOf x) (typeOf y) then .err .typeMismatch
       else
        match x with
        | .structV _ fs => .ok (e.fieldsDiff fs y)
        | _ => .err .notARecord) := rfl

theorem Engine.Compute_none_left (e : Engine) (y : Option GoVal) :
    e.Compute none y = .panicked := by cases y <;> rfl

theorem Engine.Compute_none_right (e : Engine) (x : Option GoVal) :
    e.Compute x none = .panicked := by cases x <;> rfl

/-- C8: for every (well-formed) value `a` of a record type, `Compare(a, a)`
succeeds and returns an empty Delta. -/
theorem claim_C8_reflexivity (n : String) (fs : VFields)
    (h : WFV (.structV n fs) = true) :
    Compute (some (.structV n fs)) (some (.structV n fs)) = .ok .dnil := by
  rw [WFV, Bool.and_eq_true] at h
  have hd := fd_self defaultEngine fs n fs (fun p hp =>
    ⟨VFields.lookup_of_mem h.1 hp, WFFields.wfv_of_mem h.2 hp⟩)
  simp [Compute_def, Engine.Compute_some, assignableTo_self, hd]

/-- Witness for C8 at a concrete record value. -/
theorem claim_C8_reflexivity_witness :
    WFV (.structV "Foo" (.fcons "IntVal" (.intV 42) (.fcons "StringVal" (.strV "x") .fnil))) = true ∧
    Compute (some (.structV "Foo" (.fcons "IntVal" (.intV 42) (.fcons "StringVal" (.strV "x") .fnil))))
      (some (.structV "Foo" (.fcons "IntVal" (.intV 42) (.fcons "StringVal" (.strV "x") .fnil)))) = .ok .dnil :=
  ⟨by decide, claim_C8_reflexivity "Foo" _ (by decide)⟩

/-- C10: calling `Compare` with the untyped nil interface as either
argument panics inside `reflect.Value.Type` before any error can be
produced; neither `TypeMismatchError` nor `NotARecordError` is returned. -/
theorem claim_C10_nil_panics (x y : Option GoVal) (h : x = none ∨ y = none) :
    Compute x y = .panicked ∧
    Compute x y ≠ .err .typeMismatch ∧
    Compute x y ≠ .err .notARecord := by
  have hp : Compute x y = .panicked := by
    rcases h with rfl | rfl
    · rw [Compute_def]; exact Engine.Compute_none_left _ _
    · rw [Compute_def]; exact Engine.Compute_none_right _ _
  refine ⟨hp, ?_, ?_⟩ <;> rw [hp] <;> simp

/-- Witness for C10 with a nil first argument. -/
theorem claim_C10_nil_panics_witness :
    Compute none (some (.intV 0)) = .panicked ∧
    Compute none (some (.intV 0)) ≠ .err .typeMismatch ∧
    Compute none (some (.intV 0)) ≠ .err .notARecord :=
  claim_C10_nil_panics none (some (.intV 0)) (Or.inl rfl)

/-- C5 (amended): `Compare` fails with `TypeMismatchError` for every pair
of non-nil inputs whose types are not Go-assignable (identical, or
identical underlying struct type with at least one of the two anonymous),
fails with `NotARecordError` for every assignable pair whose inputs are
not of a record type, returns no delta alongside either error, and for
non-nil inputs has no failure mode beyond these two errors. -/
theorem claim_C5_failure_modes (x y : GoVal) :
    (assignableTo (typeOf x) (typeOf y) = false →
      Compute (some x) (some y) = .err .typeMismatch) ∧
    (assignableTo (typeOf x) (typeOf y) = true → (∀ n fs, x ≠ .structV n fs) →
      Compute (some x) (some y) = .err .notARecord) ∧
    ((∃ d, Compute (some x) (some y) = .ok d) ∨
      Compute (some x) (some y) = .err .typeMismatch ∨
      Compute (some x) (some y) = .err .notARecord) := by
  refine ⟨?_, ?_, ?_⟩
  · intro ha
    simp [Compute_def, Engine.Compute_some, ha]
  · intro ha hn
    cases x with
    | structV n fs => exact absurd rfl (hn n fs)
    | intV i => simp [Compute_def, Engine.Compute_some, ha]
    | uintV u => simp [Compute_def, Engine.Compute_some, ha]
    | floatV f => simp [Compute_def, Engine.Compute_some, ha]
    | strV s => simp [Compute_def, Engine.Compute_some, ha]
    | boolV b => simp [Compute_def, Engine.Compute_some, ha]
    | nilPtrV t => simp [Compute_def, Engine.Compute_some, ha]
    | ptrV t v => simp [Compute_def, Engine.Compute_some, ha]
    | sliceV t es => simp [Compute_def, Engine.Compute_some, ha]
    | mapV t es => simp [Compute_def, Engine.Compute_some, ha]
  · by_cases ha : assignableTo (typeOf x) (typeOf y) = true
    · cases x with
      | structV n fs =>
          exact Or.inl ⟨defaultEngine.fieldsDiff fs y, by
            simp [Compute_def, Engine.Compute_some, ha]⟩
      | intV i => exact Or.inr (Or.inr (by simp [Compute_def, Engine.Compute_some, ha]))
      | uintV u => exact Or.inr (Or.inr (by simp [Compute_def, Engine.Compute_some, ha]))
      | floatV f => exact Or.inr (Or.inr (by simp [Compute_def, Engine.Compute_some, ha]))
      | strV s => exact Or.inr (Or.inr (by simp [Compute_def, Engine.Compute_some, ha]))
      | boolV b => exact Or.inr (Or.inr (by simp [Compute_def, Engine.Compute_some, ha]))
      | nilPtrV t => exact Or.inr (Or.inr (by simp [Compute_def, Engine.Compute_some, ha]))
      | ptrV t v => exact Or.inr (Or.inr (by simp [Compute_def, Engine.Compute_some, ha]))
      | sliceV t es => exact Or.inr (Or.inr (by simp [Compute_def, Engine.Compute_some, ha]))
      | mapV t es => exact Or.inr (Or.inr (by simp [Compute_def, Engine.Compute_some, ha]))
    · rw [Bool.not_eq_true] at ha
      exact Or.inr (Or.inl (by simp [Compute_def, Engine.Compute_some, ha]))

/-- Witness for C5 (amended) at concrete mismatching inputs. -/
theorem claim_C5_failure_modes_witness :
    Compute (some (.intV 1)) (some (.strV "a")) = .err .typeMismatch :=
  (claim_C5_failure_modes (.intV 1) (.strV "a")).1 (by decide)

/-- Counterexample to C5 as stated: a named struct type and an anonymous
struct type with the same underlying field list are not identical, yet
`AssignableTo` accepts the pair and `Compare` diffs them instead of
failing with `TypeMismatchError`. -/
theorem claim_C5_counterexample :
    typeOf (.structV "T" (.fcons "A" (.intV 1) .fnil)) ≠
      typeOf (.structV "" (.fcons "A" (.intV 2) .fnil)) ∧
    Compute (some (.structV "T" (.fcons "A" (.intV 1) .fnil)))
        (some (.structV "" (.fcons "A" (.intV 2) .fnil))) =
      .ok (.dcons "A" (.ch (.mk (some (.intV 1)) (some (.intV 2)) .noneD .modT)) .dnil) := by
  decide

/-- Every field being unexported makes the shared field loop skip
everything. -/
theorem fd_dnil_of_allUnexported (e : Engine) (fy : GoVal) :
    ∀ fs : VFields, fs.allUnexported = true → e.fieldsDiff fs fy = .dnil
  | .fnil, _ => rfl
  | .fcons nm v rest, h => by
      rw [VFields.allUnexported, Bool.and_eq_true, Bool.not_eq_true'] at h
      rw [fieldsDiff_fcons, h.1]
      simp only [Bool.false_and, Bool.false_eq_true, if_false]
      exact fd_dnil_of_allUnexported e fy rest h.2

/-- C2 (amended): for a record type exposing zero public fields, the
engine's fallback applies when such a record is compared as a nested value
(`compareValues` / `compareStructs`): one Modified entry carrying both
whole values when the string renderings differ, nothing when they match.
When such a record is the top-level argument, `Compute` instead returns an
empty Delta regardless of the renderings: the top-level loop skips every
non-exported field and never invokes the fallback. -/
theorem claim_C2_hidden_fallback (e : Engine) (n : String) (fs : VFields) (fy : GoVal)
    (h : fs.allUnexported = true) :
    (e.compareValues (.structV n fs) fy =
      (if isEqual (.structV n fs) fy then .noneD
       else .someD (.ch (.mk (some (.structV n fs)) (some fy) .noneD .modT)))) ∧
    (assignableTo (typeOf (.structV n fs)) (typeOf fy) = true →
      e.Compute (some (.structV n fs)) (some fy) = .ok .dnil) := by
  constructor
  · rw [compareValues_structV, Engine.compareStructs]
    by_cases he : isEqual (.structV n fs) fy = true
    · simp [isFullyNonExportedStruct, h, he]
    · simp [isFullyNonExportedStruct, h, he]
  · intro ha
    have hd := fd_dnil_of_allUnexported e fy fs h
    simp [Engine.Compute_some, ha, hd]

/-- Witness for C2 (amended) at concrete hidden-field records. -/
theorem claim_C2_hidden_fallback_witness :
    (VFields.fcons "a" (.intV 1) .fnil).allUnexported = true ∧
    defaultEngine.compareValues (.structV "hidden" (.fcons "a" (.intV 1) .fnil))
        (.structV "hidden" (.fcons "a" (.intV 2) .fnil)) =
      (if isEqual (.structV "hidden" (.fcons "a" (.intV 1) .fnil))
            (.structV "hidden" (.fcons "a" (.intV 2) .fnil)) then .noneD
       else .someD (.ch (.mk (some (.structV "hidden" (.fcons "a" (.intV 1) .fnil)))
          (some (.structV "hidden" (.fcons "a" (.intV 2) .fnil))) .noneD .modT))) :=
  ⟨by decide, (claim_C2_hidden_fallback defaultEngine "hidden" _ _ (by decide)).1⟩

/-- Counterexample to C2 as stated: two values of a record type with zero
public fields whose string renderings differ, passed as the top-level
arguments, yield an empty Delta rather than a single Modified entry. -/
theorem claim_C2_counterexample :
    goSprint (.structV "hidden" (.fcons "a" (.intV 1) .fnil)) ≠
      goSprint (.structV "hidden" (.fcons "a" (.intV 2) .fnil)) ∧
    Compute (some (.structV "hidden" (.fcons "a" (.intV 1) .fnil)))
        (some (.structV "hidden" (.fcons "a" (.intV 2) .fnil))) = .ok .dnil := by
  decide

/-! Machinery for C9: updating one boolean field of a struct. -/

theorem typeOf_structV (n : String) (fs : VFields) :
    typeOf (.structV n fs) = .structT n (typesOfFields fs) := rfl

theorem typesOfFields_fcons (nm : String) (v : GoVal) (rest : VFields) :
    typesOfFields (.fcons nm v rest) = .tcons nm (typeOf v) (typesOfFields rest) := rfl

theorem mem_of_getIdx : ∀ {fs : VFields} {i : Nat} {nm : String} {v : GoVal},
    fs.getIdx? i = some (nm, v) → (nm, v) ∈ fs.toList
  | .fnil, i, _, _, h => by rw [VFields.getIdx?] at h; exact Option.noConfusion h
  | .fcons nm2 v2 rest, 0, nm, v, h => by
      rw [VFields.getIdx?] at h
      injection h with h1
      rw [VFields.toList]
      exact List.mem_cons.mpr (Or.inl h1.symm)
  | .fcons nm2 v2 rest, i + 1, nm, v, h => by
      rw [VFields.getIdx?] at h
      rw [VFields.toList]
      exact List.mem_cons_of_mem _ (mem_of_getIdx h)

theorem tyFields_setVal_bool : ∀ (fs : VFields) (i : Nat) {nm : String} {a : Bool} (b : Bool),
    fs.getIdx? i = some (nm, .boolV a) →
    typesOfFields (fs.setVal i (.boolV b)) = typesOfFields fs
  | .fnil, _, _, _, _, _ => rfl
  | .fcons nm2 v2 rest, 0, nm, a, b, h => by
      rw [VFields.getIdx?] at h
      injection h with h1
      obtain ⟨h2, h3⟩ := (Prod.mk.injEq ..).mp h1
      subst h3
      rw [VFields.setVal, typesOfFields_fcons, typesOfFields_fcons]
      rfl
  | .fcons nm2 v2 rest, i + 1, nm, a, b, h => by
      rw [VFields.getIdx?] at h
      rw [VFields.setVal, typesOfFields_fcons, typesOfFields_fcons,
        tyFields_setVal_bool rest i b h]

theorem lookup_setVal_self : ∀ {fs : VFields} {i : Nat} {nm : String} {v0 : GoVal}
    (w : GoVal), fs.nodupKeys = true → fs.getIdx? i = some (nm, v0) →
    (fs.setVal i w).lookup nm = some w
  | .fnil, i, _, _, _, _, h => by rw [VFields.getIdx?] at h; exact Option.noConfusion h
  | .fcons nm2 v2 rest, 0, nm, v0, w, hnd, h => by
      rw [VFields.getIdx?] at h
      injection h with h1
      obtain ⟨h2, h3⟩ := (Prod.mk.injEq ..).mp h1
      subst h2
      rw [VFields.setVal, VFields.lookup]
      simp
  | .fcons nm2 v2 rest, i + 1, nm, v0, w, hnd, h => by
      rw [VFields.getIdx?] at h
      rw [VFields.nodupKeys, Bool.and_eq_true, Bool.not_eq_true'] at hnd
      obtain ⟨hnd1, hnd2⟩ := hnd
      have hkey : rest.hasKey nm = true := VFields.hasKey_of_mem (mem_of_getIdx h)
      have hne : (nm2 == nm) = false := by
        by_contra hb
        rw [Bool.not_eq_false, beq_iff_eq] at hb
        subst hb
        rw [hkey] at hnd1
        exact Bool.noConfusion hnd1
      rw [VFields.setVal, VFields.lookup, hne]
      exact lookup_setVal_self w hnd2 h

theorem lookup_setVal_other : ∀ {fs : VFields} {i : Nat} {nm : String} {v0 : GoVal}
    (w : GoVal) {k : String}, fs.getIdx? i = some (nm, v0) → k ≠ nm →
    (fs.setVal i w).lookup k = fs.lookup k
  | .fnil, i, _, _, _, _, h, _ => by rw [VFields.getIdx?] at h; exact Option.noConfusion h
  | .fcons nm2 v2 rest, 0, nm, v0, w, k, h, hk => by
      rw [VFields.getIdx?] at h
      injection h with h1
      obtain ⟨h2, h3⟩ := (Prod.mk.injEq ..).mp h1
      subst h2
      rw [VFields.setVal, VFields.lookup, VFields.lookup]
      have hne : (nm2 == k) = false := by
        rw [beq_eq_false_iff_ne]
        exact fun hh => hk hh.symm
      rw [hne]
      rfl
  | .fcons nm2 v2 rest, i + 1, nm, v0, w, k, h, hk => by
      rw [VFields.getIdx?] at h
      rw [VFields.setVal, VFields.lookup, VFields.lookup]
      by_cases hb : (nm2 == k) = true
      · rw [hb]
        rfl
      · rw [Bool.not_eq_true] at hb
        rw [hb]
        simp only [Bool.false_eq_true, if_false]
        exact lookup_setVal_other w h hk

/-- The shared field loop yields nothing when every individually compared
field pair yields nothing. -/
theorem fd_dnil_of_pointwise (e : Engine) (fy : GoVal) :
    ∀ fs : VFields,
    (∀ p ∈ fs.toList, ∀ vy, fieldByName fy p.1 = some vy →
      e.compareValues p.2 vy = .noneD) →
    e.fieldsDiff fs fy = .dnil
  | .fnil, _ => rfl
  | .fcons nm vx rest, h => by
      have ht := fun p hp => h p (List.mem_cons_of_mem _ hp)
      rw [fieldsDiff_fcons]
      by_cases hc : (isExported nm && !(e.IsIgnored nm)) = true
      · rw [if_pos hc]
        rcases hfb : fieldByName fy nm with _ | vy
        · simp only [hfb]
          exact fd_dnil_of_pointwise e fy rest ht
        · simp only [hfb]
          rw [h (nm, vx) (List.mem_cons_self _ _) vy hfb]
          exact fd_dnil_of_pointwise e fy rest ht
      · rw [if_neg hc]
        exact fd_dnil_of_pointwise e fy rest ht

/-- C9: two same-typed record values that differ only in the value of an
exported boolean field compare as equal — the per-kind dispatch has no
boolean case, so the difference is never reported and `Compare` returns an
empty Delta. -/
theorem claim_C9_bool_never_reported (n : String) (fs : VFields) (i : Nat)
    (nm : String) (a b : Bool)
    (hwf : WFV (.structV n fs) = true)
    (hg : fs.getIdx? i = some (nm, .boolV a))
    (hex : isExported nm = true) :
    Compute (some (.structV n fs)) (some (.structV n (fs.setVal i (.boolV b)))) =
      .ok .dnil := by
  rw [WFV, Bool.and_eq_true] at hwf
  have hasgn : assignableTo (typeOf (.structV n fs))
      (typeOf (.structV n (fs.setVal i (.boolV b)))) = true := by
    rw [typeOf_structV, typeOf_structV, tyFields_setVal_bool fs i b hg]
    exact assignableTo_self _
  have hfd : defaultEngine.fieldsDiff fs (.structV n (fs.setVal i (.boolV b))) = .dnil := by
    apply fd_dnil_of_pointwise
    intro p hp vy hvy
    obtain ⟨nm2, vx⟩ := p
    rw [show fieldByName (.structV n (fs.setVal i (.boolV b))) (nm2, vx).1 =
      (fs.setVal i (.boolV b)).lookup nm2 from rfl] at hvy
    by_cases hnm : nm2 = nm
    · subst hnm
      have h1 : fs.lookup nm2 = some vx := VFields.lookup_of_mem hwf.1 hp
      have h2 : fs.lookup nm2 = some (.boolV a) :=
        VFields.lookup_of_mem hwf.1 (mem_of_getIdx hg)
      have hvx : vx = .boolV a := by
        rw [h1] at h2
        injection h2
      have h3 : (fs.setVal i (.boolV b)).lookup nm2 = some (.boolV b) :=
        lookup_setVal_self (.boolV b) hwf.1 hg
      rw [h3] at hvy
      injection hvy with hvy2
      rw [hvx, ← hvy2]
      exact compareValues_boolV defaultEngine a (.boolV b)
    · have h4 : (fs.setVal i (.boolV b)).lookup nm2 = fs.lookup nm2 :=
        lookup_setVal_other (.boolV b) hg hnm
      have h1 : fs.lookup nm2 = some vx := VFields.lookup_of_mem hwf.1 hp
      rw [h4, h1] at hvy
      injection hvy with hvy2
      rw [← hvy2]
      exact cv_self defaultEngine vx (WFFields.wfv_of_mem hwf.2 hp)
  simp [Compute_def, Engine.Compute_some, hasgn, hfd]

/-- Witness for C9 at a concrete boolean-field update. -/
theorem claim_C9_bool_never_reported_witness :
    WFV (.structV "Foo" (.fcons "Flag" (.boolV true) (.fcons "IntVal" (.intV 7) .fnil))) = true ∧
    (VFields.fcons "Flag" (.boolV true) (.fcons "IntVal" (.intV 7) .fnil)).getIdx? 0 =
      some ("Flag", .boolV true) ∧
    isExported "Flag" = true ∧
    Compute (some (.structV "Foo" (.fcons "Flag" (.boolV true) (.fcons "IntVal" (.intV 7) .fnil))))
      (some (.structV "Foo" ((VFields.fcons "Flag" (.boolV true)
        (.fcons "IntVal" (.intV 7) .fnil)).setVal 0 (.boolV false)))) = .ok .dnil :=
  ⟨by decide, by decide, by decide,
    claim_C9_bool_never_reported "Foo" _ 0 "Flag" true false (by decide) (by decide) (by decide)⟩

/-! C6: the floating point comparison policy. -/

/-- The engine's cross-multiplied integer test is exactly the
absolute-difference-beyond-`Tolerance` test over the exact rational values
of the two floats. -/
theorem floatAbsDiffGtTol_iff (x y : Flt) (hx : 0 < x.den) (hy : 0 < y.den) :
    floatAbsDiffGtTol x y = true ↔ Tolerance < |x.toRat - y.toRat| := by
  rw [floatAbsDiffGtTol, decide_eq_true_iff]
  rw [Flt.toRat, Flt.toRat, Tolerance]
  have hxq : (0:ℚ) < (x.den : ℚ) := by exact_mod_cast hx
  have hyq : (0:ℚ) < (y.den : ℚ) := by exact_mod_cast hy
  rw [div_sub_div _ _ (ne_of_gt hxq) (ne_of_gt hyq)]
  rw [abs_div, abs_of_pos (mul_pos hxq hyq)]
  rw [div_lt_div_iff₀ (by norm_num : (0:ℚ) < 1000000) (mul_pos hxq hyq)]
  rw [one_mul]
  rw [show ((x.num : ℚ) * (y.den : ℚ) - (x.den : ℚ) * (y.num : ℚ)) =
      ((x.num * (y.den : ℤ) - y.num * (x.den : ℤ) : ℤ) : ℚ) by push_cast; ring]
  rw [show |((x.num * (y.den : ℤ) - y.num * (x.den : ℤ) : ℤ) : ℚ)| =
      (((x.num * (y.den : ℤ) - y.num * (x.den : ℤ)).natAbs : ℕ) : ℚ) by
    rw [Int.cast_natAbs, Int.cast_abs]]
  constructor
  · intro h; exact_mod_cast h
  · intro h; exact_mod_cast h

/-- C6: a Modified entry for a floating-point field pair is emitted exactly
when the absolute difference exceeds `Tolerance = 1e-6`; in particular
`53.032` versus `53.0320001` yields no entry while `53.032` versus
`53.042` yields one Modified entry carrying both values. -/
theorem claim_C6_float_tolerance (e : Engine) (x y : Flt)
    (hx : 0 < x.den) (hy : 0 < y.den) :
    (e.compareValues (.floatV x) (.floatV y) =
      if Tolerance < |x.toRat - y.toRat| then
        .someD (.ch (.mk (some (.floatV x)) (some (.floatV y)) .noneD .modT))
      else .noneD) ∧
    defaultEngine.compareValues (.floatV ⟨53032, 1000⟩) (.floatV ⟨530320001, 10000000⟩) =
      .noneD ∧
    defaultEngine.compareValues (.floatV ⟨53032, 1000⟩) (.floatV ⟨53042, 1000⟩) =
      .someD (.ch (.mk (some (.floatV ⟨53032, 1000⟩)) (some (.floatV ⟨53042, 1000⟩)) .noneD
        .modT)) := by
  refine ⟨?_, by decide, by decide⟩
  show (if floatAbsDiffGtTol x y then
      OptDVal.someD (.ch (.mk (some (.floatV x)) (some (.floatV y)) .noneD .modT))
    else .noneD) =
    (if Tolerance < |x.toRat - y.toRat| then
      .someD (.ch (.mk (some (.floatV x)) (some (.floatV y)) .noneD .modT))
    else .noneD)
  by_cases hf : floatAbsDiffGtTol x y = true
  · rw [if_pos hf, if_pos ((floatAbsDiffGtTol_iff x y hx hy).mp hf)]
  · rw [Bool.not_eq_true] at hf
    have hnc : ¬ (Tolerance < |x.toRat - y.toRat|) := fun hc => by
      have hh := (floatAbsDiffGtTol_iff x y hx hy).mpr hc
      rw [hf] at hh
      exact Bool.noConfusion hh
    rw [if_neg hnc]
    simp [hf]

/-- Witness for C6 at the concrete values from the spec. -/
theorem claim_C6_float_tolerance_witness :
    (0 < (1000:Nat)) ∧
    defaultEngine.compareValues (.floatV ⟨53032, 1000⟩) (.floatV ⟨53042, 1000⟩) =
      (if Tolerance < |Flt.toRat ⟨53032, 1000⟩ - Flt.toRat ⟨53042, 1000⟩| then
        .someD (.ch (.mk (some (.floatV ⟨53032, 1000⟩)) (some (.floatV ⟨53042, 1000⟩)) .noneD
          .modT))
      else .noneD) :=
  ⟨by decide,
    (claim_C6_float_tolerance defaultEngine ⟨53032, 1000⟩ ⟨53042, 1000⟩
      (by decide) (by decide)).1⟩

/-! C7: excluded field names never appear as delta keys.  Unfolding lemmas
for the `noKey` family first. -/

theorem noKey_ch (bad : String) (o n : Option GoVal) (v : OptDVal) (t : ChangeType) :
    DVal.noKey bad (.ch (.mk o n v t)) = OptDVal.noKeyO bad v := rfl

theorem noKey_diffMap (bad : String) (es : DEntries) :
    DVal.noKey bad (.diffMap es) = DEntries.noKeyD bad es := rfl

theorem noKey_changeMap (bad : String) (es : CEntries) :
    DVal.noKey bad (.changeMap es) = CEntries.noKeyC bad es := rfl

theorem noKeyO_someD (bad : String) (d : DVal) :
    OptDVal.noKeyO bad (.someD d) = DVal.noKey bad d := rfl

theorem noKeyD_dcons (bad k : String) (d : DVal) (rest : DEntries) :
    DEntries.noKeyD bad (.dcons k d rest) =
      (!(k == bad) && DVal.noKey bad d && DEntries.noKeyD bad rest) := rfl

theorem noKeyC_ccons (bad k : String) (o n : Option GoVal) (v : OptDVal)
    (t : ChangeType) (rest : CEntries) :
    CEntries.noKeyC bad (.ccons k (.mk o n v t) rest) =
      (OptDVal.noKeyO bad v && CEntries.noKeyC bad rest) := rfl

theorem noKeyC_append (bad : String) : ∀ (a b : CEntries),
    CEntries.noKeyC bad (a.append b) =
      (CEntries.noKeyC bad a && CEntries.noKeyC bad b)
  | .cnil, b => rfl
  | .ccons k (.mk o n v t) rest, b => by
      rw [CEntries.append, noKeyC_ccons, noKeyC_ccons, noKeyC_append bad rest b,
        Bool.and_assoc]

theorem noKeyC_addEntriesFrom (bad : String) : ∀ (vs : VElems) (i : Nat),
    CEntries.noKeyC bad (addEntriesFrom vs i) = true
  | .enil, _ => rfl
  | .econs v rest, i => by
      rw [addEntriesFrom, noKeyC_ccons, noKeyC_addEntriesFrom bad rest (i + 1)]
      rfl

theorem noKeyC_delEntriesFrom (bad : String) : ∀ (vs : VElems) (i : Nat),
    CEntries.noKeyC bad (delEntriesFrom vs i) = true
  | .enil, _ => rfl
  | .econs v rest, i => by
      rw [delEntriesFrom, noKeyC_ccons, noKeyC_delEntriesFrom bad rest (i + 1)]
      rfl

theorem noKeyC_tailEntries (bad : String) (xs ys : VElems) :
    CEntries.noKeyC bad (tailEntries xs ys) = true := by
  rw [tailEntries]
  split
  · exact noKeyC_delEntriesFrom bad _ _
  split
  · exact noKeyC_addEntriesFrom bad _ _
  · rfl

mutual

theorem cvNK (e : Engine) (bad : String) (hb : e.IsIgnored bad = true) :
    ∀ (fx fy : GoVal), OptDVal.noKeyO bad (e.compareValues fx fy) = true
  | .intV ix, fy => by
      cases fy <;> simp only [compareValues_intV] <;> first | rfl | (split <;> rfl)
  | .uintV ux, fy => by
      cases fy <;> simp only [compareValues_uintV] <;> first | rfl | (split <;> rfl)
  | .floatV qx, fy => by
      cases fy <;> simp only [compareValues_floatV] <;> first | rfl | (split <;> rfl)
  | .strV sx, fy => by
      cases fy <;> simp only [compareValues_strV] <;> first | rfl | (split <;> rfl)
  | .boolV b, fy => rfl
  | .mapV t entries, fy => rfl
  | .nilPtrV t, fy => by cases fy <;> rfl
  | .ptrV t vx, fy => by
      cases fy with
      | ptrV t2 vy => exact cvNK e bad hb vx vy
      | intV i => rfl
      | uintV u => rfl
      | floatV f => rfl
      | strV s => rfl
      | boolV b => rfl
      | nilPtrV t2 => rfl
      | sliceV t2 es => rfl
      | mapV t2 es => rfl
      | structV n fs => rfl
  | .sliceV t xs, fy => by
      rw [compareValues_sliceV]
      cases xs with
      | enil =>
          rcases hys : elemsOf fy with _ | ⟨y, ys2⟩
          · rfl
          · show CEntries.noKeyC bad (addEntriesFrom (.econs y ys2) 0) = true
            exact noKeyC_addEntriesFrom bad _ _
      | econs x xs2 =>
          rcases hys : elemsOf fy with _ | ⟨y, ys2⟩
          · show CEntries.noKeyC bad (delEntriesFrom (.econs x xs2) 0) = true
            exact noKeyC_delEntriesFrom bad _ _
          · have hsc : CEntries.noKeyC bad
                (e.sliceChanges (.econs x xs2) (.econs y ys2)) = true := by
              rw [Engine.sliceChanges, noKeyC_append,
                edNK e bad hb (.econs x xs2) (.econs y ys2) 0,
                noKeyC_tailEntries]
              rfl
            rw [Engine.compareSlices]
            rcases hch : e.sliceChanges (.econs x xs2) (.econs y ys2) with _ | ⟨k, c, rest⟩
            · simp only [hch]
              rfl
            · simp only [hch]
              rw [hch] at hsc
              exact hsc
  | .structV n fs, fy => by
      rw [compareValues_structV, Engine.compareStructs]
      by_cases hu : isFullyNonExportedStruct (.structV n fs) = true
      · rw [if_pos hu]
        split <;> rfl
      · rw [Bool.not_eq_true] at hu
        simp only [hu, Bool.false_eq_true, if_false]
        rcases hfd : e.fieldsDiff fs fy with _ | ⟨k, d, rest⟩
        · simp only [hfd]
          rfl
        · simp only [hfd]
          have hh := fdNK e bad hb fs fy
          rw [hfd] at hh
          exact hh
  termination_by fx _ => sizeOf fx

theorem fdNK (e : Engine) (bad : String) (hb : e.IsIgnored bad = true) :
    ∀ (fs : VFields) (fy : GoVal), DEntries.noKeyD bad (e.fieldsDiff fs fy) = true
  | .fnil, fy => rfl
  | .fcons nm vx rest, fy => by
      rw [fieldsDiff_fcons]
      by_cases hc : (isExported nm && !(e.IsIgnored nm)) = true
      · rw [if_pos hc]
        have hnm : (nm == bad) = false := by
          rw [Bool.and_eq_true] at hc
          have hig : e.IsIgnored nm = false := by
            have h2 := hc.2
            rwa [Bool.not_eq_true'] at h2
          rw [beq_eq_false_iff_ne]
          intro hh
          rw [hh, hb] at hig
          exact Bool.noConfusion hig
        rcases hfb : fieldByName fy nm with _ | vy
        · simp only [hfb]
          exact fdNK e bad hb rest fy
        · simp only [hfb]
          rcases hcv : e.compareValues vx vy with _ | d
          · simp only [hcv]
            exact fdNK e bad hb rest fy
          · simp only [hcv]
            rw [noKeyD_dcons, hnm]
            have hd := cvNK e bad hb vx vy
            rw [hcv, noKeyO_someD] at hd
            rw [hd, fdNK e bad hb rest fy]
            rfl
      · rw [if_neg hc]
        exact fdNK e bad hb rest fy
  termination_by fs _ => sizeOf fs

theorem edNK (e : Engine) (bad : String) (hb : e.IsIgnored bad = true) :
    ∀ (xs ys : VElems) (i : Nat), CEntries.noKeyC bad (e.elemsDiff xs ys i) = true
  | .enil, ys, i => by rw [elemsDiff_enil_left]; rfl
  | .econs x xs2, ys, i => by
      cases ys with
      | enil => rw [elemsDiff_enil_right]; rfl
      | econs y ys2 =>
          rw [elemsDiff_econs]
          rcases hcv : e.compareValues x y with _ | d
          · simp only [hcv]
            exact edNK e bad hb xs2 ys2 (i + 1)
          · simp only [hcv]
            rw [noKeyC_ccons, noKeyO_someD]
            have hd := cvNK e bad hb x y
            rw [hcv, noKeyO_someD] at hd
            rw [hd, edNK e bad hb xs2 ys2 (i + 1)]
            rfl
  termination_by xs _ _ => sizeOf xs

end

/-- Inversion of a successful `Compute`: the first input is a struct and
the delta is the field loop's result. -/
theorem Compute_ok_inv (e : Engine) (x y : GoVal) (d : Diff)
    (hok : e.Compute (some x) (some y) = .ok d) :
    ∃ n fs, x = .structV n fs ∧ d = e.fieldsDiff fs y := by
  rw [Engine.Compute_some] at hok
  by_cases ha : assignableTo (typeOf x) (typeOf y) = true
  · rw [ha] at hok
    simp only [Bool.not_true, Bool.false_eq_true, if_false] at hok
    cases x with
    | structV n fs =>
        have h2 : ComputeResult.ok (e.fieldsDiff fs y) = .ok d := hok
        injection h2 with h3
        exact ⟨n, fs, rfl, h3.symm⟩
    | intV i => exact absurd (show ComputeResult.err .notARecord = .ok d from hok) (by simp)
    | uintV u => exact absurd (show ComputeResult.err .notARecord = .ok d from hok) (by simp)
    | floatV f => exact absurd (show ComputeResult.err .notARecord = .ok d from hok) (by simp)
    | strV s => exact absurd (show ComputeResult.err .notARecord = .ok d from hok) (by simp)
    | boolV b => exact absurd (show ComputeResult.err .notARecord = .ok d from hok) (by simp)
    | nilPtrV t => exact absurd (show ComputeResult.err .notARecord = .ok d from hok) (by simp)
    | ptrV t v => exact absurd (show ComputeResult.err .notARecord = .ok d from hok) (by simp)
    | sliceV t es => exact absurd (show ComputeResult.err .notARecord = .ok d from hok) (by simp)
    | mapV t es => exact absurd (show ComputeResult.err .notARecord = .ok d from hok) (by simp)
  · rw [Bool.not_eq_true] at ha
    rw [ha] at hok
    simp at hok

/-- C7: when the engine's exclusion set contains a field name, no entry
keyed by that name appears anywhere in a returned Delta, at any nesting
depth (sequence-index keys of `changeMap` nodes are not field entries;
exclusion is checked before comparing any field at any level). -/
theorem claim_C7_exclusion (e : Engine) (bad : String) (x y : GoVal) (d : Diff)
    (hmem : bad ∈ e.ExcludeFieldList)
    (hok : e.Compute (some x) (some y) = .ok d) :
    DEntries.noKeyD bad d = true := by
  have hb : e.IsIgnored bad = true := by
    rw [Engine.IsIgnored]
    exact List.elem_eq_true_of_mem hmem
  obtain ⟨n, fs, rfl, rfl⟩ := Compute_ok_inv e x y d hok
  exact fdNK e bad hb fs y

/-- Witness for C7: excluding `StringVal` suppresses its differing entry
while the differing `IntVal` entry remains. -/
theorem claim_C7_exclusion_witness :
    "StringVal" ∈ (Engine.mk ["StringVal"] 0).ExcludeFieldList ∧
    (Engine.mk ["StringVal"] 0).Compute
      (some (.structV "Foo" (.fcons "StringVal" (.strV "a") (.fcons "IntVal" (.intV 1) .fnil))))
      (some (.structV "Foo" (.fcons "StringVal" (.strV "b") (.fcons "IntVal" (.intV 2) .fnil)))) =
      .ok (.dcons "IntVal" (.ch (.mk (some (.intV 1)) (some (.intV 2)) .noneD .modT)) .dnil) ∧
    DEntries.noKeyD "StringVal"
      (.dcons "IntVal" (.ch (.mk (some (.intV 1)) (some (.intV 2)) .noneD .modT)) .dnil) = true :=
  ⟨by decide, by decide,
    claim_C7_exclusion (Engine.mk ["StringVal"] 0) "StringVal"
      (.structV "Foo" (.fcons "StringVal" (.strV "a") (.fcons "IntVal" (.intV 1) .fnil)))
      (.structV "Foo" (.fcons "StringVal" (.strV "b") (.fcons "IntVal" (.intV 2) .fnil)))
      (.dcons "IntVal" (.ch (.mk (some (.intV 1)) (some (.intV 2)) .noneD .modT)) .dnil)
      (by decide) (by decide)⟩

/-! C4: characterisation of the sequence comparison. -/

theorem ctoList_append : ∀ (a b : CEntries),
    (a.append b).toList = a.toList ++ b.toList
  | .cnil, b => rfl
  | .ccons k c rest, b => by
      rw [CEntries.append, CEntries.toList, CEntries.toList, ctoList_append rest b]
      rfl

theorem get?_some_lt_size : ∀ (xs : VElems) (j : Nat) (x : GoVal),
    xs.get? j = some x → j < xs.size
  | .enil, j, x, h => by rw [VElems.get?] at h; exact Option.noConfusion h
  | .econs v rest, 0, x, _ => by rw [VElems.size]; omega
  | .econs v rest, j + 1, x, h => by
      rw [VElems.get?] at h
      rw [VElems.size]
      have := get?_some_lt_size rest j x h
      omega

theorem drop_get? : ∀ (xs : VElems) (n j : Nat), (xs.drop n).get? j = xs.get? (n + j)
  | xs, 0, j => by rw [VElems.drop, Nat.zero_add]
  | .enil, n + 1, j => by rw [VElems.drop, VElems.get?, VElems.get?]
  | .econs v rest, n + 1, j => by
      rw [VElems.drop]
      rw [show n + 1 + j = (n + j) + 1 by omega]
      rw [VElems.get?]
      exact drop_get? rest n j

theorem add_mem_iff : ∀ (vs : VElems) (i0 : Nat) (k : String) (c : Change),
    ((k, c) ∈ (addEntriesFrom vs i0).toList ↔
      ∃ j v, k = Nat.repr (i0 + j) ∧ vs.get? j = some v ∧
        c = .mk none (some v) .noneD .addT)
  | .enil, i0, k, c => by
      rw [addEntriesFrom]
      simp [CEntries.toList, VElems.get?]
  | .econs v rest, i0, k, c => by
      rw [addEntriesFrom, CEntries.toList, List.mem_cons,
        add_mem_iff rest (i0 + 1) k c]
      constructor
      · rintro (h1 | ⟨j, w, hk, hw, hc⟩)
        · obtain ⟨hk, hc⟩ := (Prod.mk.injEq ..).mp h1
          refine ⟨0, v, ?_, rfl, hc⟩
          rw [Nat.add_zero]
          exact hk
        · refine ⟨j + 1, w, ?_, ?_, hc⟩
          · rw [hk]
            congr 1
            omega
          · rw [VElems.get?]
            exact hw
      · rintro ⟨j, w, hk, hw, hc⟩
        cases j with
        | zero =>
            rw [VElems.get?] at hw
            injection hw with hw2
            left
            rw [Prod.mk.injEq]
            constructor
            · rw [hk, Nat.add_zero]
            · rw [hc, hw2]
        | succ j2 =>
            rw [VElems.get?] at hw
            right
            refine ⟨j2, w, ?_, hw, hc⟩
            rw [hk]
            congr 1
            omega

theorem del_mem_iff : ∀ (vs : VElems) (i0 : Nat) (k : String) (c : Change),
    ((k, c) ∈ (delEntriesFrom vs i0).toList ↔
      ∃ j v, k = Nat.repr (i0 + j) ∧ vs.get? j = some v ∧
        c = .mk (some v) none .noneD .delT)
  | .enil, i0, k, c => by
      rw [delEntriesFrom]
      simp [CEntries.toList, VElems.get?]
  | .econs v rest, i0, k, c => by
      rw [delEntriesFrom, CEntries.toList, List.mem_cons,
        del_mem_iff rest (i0 + 1) k c]
      constructor
      · rintro (h1 | ⟨j, w, hk, hw, hc⟩)
        · obtain ⟨hk, hc⟩ := (Prod.mk.injEq ..).mp h1
          refine ⟨0, v, ?_, rfl, hc⟩
          rw [Nat.add_zero]
          exact hk
        · refine ⟨j + 1, w, ?_, ?_, hc⟩
          · rw [hk]
            congr 1
            omega
          · rw [VElems.get?]
            exact hw
      · rintro ⟨j, w, hk, hw, hc⟩
        cases j with
        | zero =>
            rw [VElems.get?] at hw
            injection hw with hw2
            left
            rw [Prod.mk.injEq]
            constructor
            · rw [hk, Nat.add_zero]
            · rw [hc, hw2]
        | succ j2 =>
            rw [VElems.get?] at hw
            right
            refine ⟨j2, w, ?_, hw, hc⟩
            rw [hk]
            congr 1
            omega

theorem ed_mem_iff (e : Engine) : ∀ (xs ys : VElems) (i0 : Nat) (k : String) (c : Change),
    ((k, c) ∈ (e.elemsDiff xs ys i0).toList ↔
      ∃ j x y d, k = Nat.repr (i0 + j) ∧ xs.get? j = some x ∧ ys.get? j = some y ∧
        e.compareValues x y = .someD d ∧ c = .mk none none (.someD d) .modT)
  | .enil, ys, i0, k, c => by
      rw [elemsDiff_enil_left]
      simp [CEntries.toList, VElems.get?]
  | .econs x xs2, .enil, i0, k, c => by
      rw [elemsDiff_enil_right]
      constructor
      · intro h
        exact absurd h (List.not_mem_nil _)
      · rintro ⟨j, x2, y2, d2, _, _, hy, _, _⟩
        rw [VElems.get?] at hy
        exact Option.noConfusion hy
  | .econs x xs2, .econs y ys2, i0, k, c => by
      rw [elemsDiff_econs]
      rcases hcv : e.compareValues x y with _ | d0
      · simp only [hcv]
        rw [ed_mem_iff e xs2 ys2 (i0 + 1) k c]
        constructor
        · rintro ⟨j, x2, y2, d2, hk, hx, hy, hc2, hcc⟩
          refine ⟨j + 1, x2, y2, d2, ?_, ?_, ?_, hc2, hcc⟩
          · rw [hk]
            congr 1
            omega
          · rw [VElems.get?]
            exact hx
          · rw [VElems.get?]
            exact hy
        · rintro ⟨j, x2, y2, d2, hk, hx, hy, hc2, hcc⟩
          cases j with
          | zero =>
              rw [VElems.get?] at hx hy
              injection hx with hx2
              injection hy with hy2
              rw [← hx2, ← hy2, hcv] at hc2
              exact OptDVal.noConfusion hc2
          | succ j2 =>
              rw [VElems.get?] at hx hy
              refine ⟨j2, x2, y2, d2, ?_, hx, hy, hc2, hcc⟩
              rw [hk]
              congr 1
              omega
      · simp only [hcv, CEntries.toList]
        rw [List.mem_cons, ed_mem_iff e xs2 ys2 (i0 + 1) k c]
        constructor
        · rintro (h1 | ⟨j, x2, y2, d2, hk, hx, hy, hc2, hcc⟩)
          · obtain ⟨hk, hc⟩ := (Prod.mk.injEq ..).mp h1
            refine ⟨0, x, y, d0, ?_, rfl, rfl, hcv, hc⟩
            rw [Nat.add_zero]
            exact hk
          · refine ⟨j + 1, x2, y2, d2, ?_, ?_, ?_, hc2, hcc⟩
            · rw [hk]
              congr 1
              omega
            · rw [VElems.get?]
              exact hx
            · rw [VElems.get?]
              exact hy
        · rintro ⟨j, x2, y2, d2, hk, hx, hy, hc2, hcc⟩
          cases j with
          | zero =>
              rw [VElems.get?] at hx hy
              injection hx with hx2
              injection hy with hy2
              rw [← hx2, ← hy2, hcv] at hc2
              injection hc2 with hd
              left
              rw [Prod.mk.injEq]
              constructor
              · rw [hk, Nat.add_zero]
              · rw [hcc, hd]
          | succ j2 =>
              rw [VElems.get?] at hx hy
              right
              refine ⟨j2, x2, y2, d2, ?_, hx, hy, hc2, hcc⟩
              rw [hk]
              congr 1
              omega

/-- C4: sequence comparison is index-aligned.  Concretely, `[1,3,4]` versus
`[1,2,4,5]` yields a Modified entry wrapping old=3/new=2 at key "1", an
Added entry with value 5 at key "3" and nothing else; in general, for two
nonempty element lists the change map contains exactly: a wrapped Modified
entry at each common index whose elements compare unequal, Removed entries
sourced from `old` at the indices `[len new, len old)` when `old` is
longer, and Added entries sourced from `new` at the indices
`[len old, len new)` when `new` is longer. -/
theorem claim_C4_index_aligned (e : Engine) (xs ys : VElems)
    (hx : xs ≠ .enil) (hy : ys ≠ .enil) :
    (Compute
      (some (.structV "Foo" (.fcons "IntList"
        (.sliceV .intT (.econs (.intV 1) (.econs (.intV 3) (.econs (.intV 4) .enil)))) .fnil)))
      (some (.structV "Foo" (.fcons "IntList"
        (.sliceV .intT (.econs (.intV 1) (.econs (.intV 2) (.econs (.intV 4)
          (.econs (.intV 5) .enil))))) .fnil))) =
      .ok (.dcons "IntList" (.changeMap
        (.ccons "1" (.mk none none
          (.someD (.ch (.mk (some (.intV 3)) (some (.intV 2)) .noneD .modT))) .modT)
        (.ccons "3" (.mk none (some (.intV 5)) .noneD .addT) .cnil))) .dnil)) ∧
    (e.compareSlices xs ys =
      (match e.sliceChanges xs ys with
       | .cnil => .noneD
       | cs => .someD (.changeMap cs))) ∧
    (∀ k c, (k, c) ∈ (e.sliceChanges xs ys).toList ↔
      ∃ i, k = Nat.repr i ∧
        ((∃ x y d, xs.get? i = some x ∧ ys.get? i = some y ∧
            e.compareValues x y = .someD d ∧ c = .mk none none (.someD d) .modT) ∨
         (ys.size ≤ i ∧ ∃ x, xs.get? i = some x ∧ c = .mk (some x) none .noneD .delT) ∨
         (xs.size ≤ i ∧ ∃ y, ys.get? i = some y ∧ c = .mk none (some y) .noneD .addT))) := by
  refine ⟨by decide, ?_, ?_⟩
  · rcases xs with _ | ⟨x, xs2⟩
    · exact absurd rfl hx
    rcases ys with _ | ⟨y, ys2⟩
    · exact absurd rfl hy
    rfl
  · intro k c
    rw [Engine.sliceChanges, ctoList_append, List.mem_append,
      ed_mem_iff e xs ys 0 k c, tailEntries]
    by_cases h1 : ys.size < xs.size
    · rw [if_pos h1, del_mem_iff]
      constructor
      · rintro (⟨j, x, y, d, hk, hx2, hy2, hcv, hc⟩ | ⟨j, x2, hk, hx2, hc⟩)
        · refine ⟨j, ?_, Or.inl ⟨x, y, d, hx2, hy2, hcv, hc⟩⟩
          rw [hk]
          congr 1
          omega
        · rw [drop_get?] at hx2
          exact ⟨ys.size + j, hk, Or.inr (Or.inl ⟨by omega, x2, hx2, hc⟩)⟩
      · rintro ⟨i, hk, (⟨x, y, d, hx2, hy2, hcv, hc⟩ | ⟨hge, x2, hx2, hc⟩ | ⟨hge, y2, hy2, hc⟩)⟩
        · left
          refine ⟨i, x, y, d, ?_, hx2, hy2, hcv, hc⟩
          rw [hk]
          congr 1
          omega
        · right
          refine ⟨i - ys.size, x2, ?_, ?_, hc⟩
          · rw [hk]
            congr 1
            omega
          · rw [drop_get?, show ys.size + (i - ys.size) = i by omega]
            exact hx2
        · have := get?_some_lt_size ys i y2 hy2
          omega
    · rw [if_neg h1]
      by_cases h2 : xs.size < ys.size
      · rw [if_pos h2, add_mem_iff]
        constructor
        · rintro (⟨j, x, y, d, hk, hx2, hy2, hcv, hc⟩ | ⟨j, y2, hk, hy2, hc⟩)
          · refine ⟨j, ?_, Or.inl ⟨x, y, d, hx2, hy2, hcv, hc⟩⟩
            rw [hk]
            congr 1
            omega
          · rw [drop_get?] at hy2
            exact ⟨xs.size + j, hk, Or.inr (Or.inr ⟨by omega, y2, hy2, hc⟩)⟩
        · rintro ⟨i, hk, (⟨x, y, d, hx2, hy2, hcv, hc⟩ | ⟨hge, x2, hx2, hc⟩ | ⟨hge, y2, hy2, hc⟩)⟩
          · left
            refine ⟨i, x, y, d, ?_, hx2, hy2, hcv, hc⟩
            rw [hk]
            congr 1
            omega
          · have := get?_some_lt_size xs i x2 hx2
            omega
          · right
            refine ⟨i - xs.size, y2, ?_, ?_, hc⟩
            · rw [hk]
              congr 1
              omega
            · rw [drop_get?, show xs.size + (i - xs.size) = i by omega]
              exact hy2
      · rw [if_neg h2]
        constructor
        · rintro (⟨j, x, y, d, hk, hx2, hy2, hcv, hc⟩ | habs)
          · refine ⟨j, ?_, Or.inl ⟨x, y, d, hx2, hy2, hcv, hc⟩⟩
            rw [hk]
            congr 1
            omega
          · exact absurd habs (List.not_mem_nil _)
        · rintro ⟨i, hk, (⟨x, y, d, hx2, hy2, hcv, hc⟩ | ⟨hge, x2, hx2, hc⟩ | ⟨hge, y2, hy2, hc⟩)⟩
          · left
            refine ⟨i, x, y, d, ?_, hx2, hy2, hcv, hc⟩
            rw [hk]
            congr 1
            omega
          · have := get?_some_lt_size xs i x2 hx2
            omega
          · have := get?_some_lt_size ys i y2 hy2
            omega

/-- Witness for C4 at the spec's concrete slices, exercising the general
characterisation at key "3". -/
theorem claim_C4_index_aligned_witness :
    ((VElems.econs (GoVal.intV 1) (.econs (.intV 3) (.econs (.intV 4) .enil))) ≠ .enil) ∧
    ((VElems.econs (GoVal.intV 1) (.econs (.intV 2) (.econs (.intV 4) (.econs (.intV 5) .enil)))) ≠ .enil) ∧
    (("3", Change.mk none (some (.intV 5)) .noneD .addT) ∈
        (defaultEngine.sliceChanges
          (.econs (.intV 1) (.econs (.intV 3) (.econs (.intV 4) .enil)))
          (.econs (.intV 1) (.econs (.intV 2) (.econs (.intV 4) (.econs (.intV 5) .enil))))).toList ↔
      ∃ i, "3" = Nat.repr i ∧
        ((∃ x y d, (VElems.econs (GoVal.intV 1) (.econs (.intV 3) (.econs (.intV 4) .enil))).get? i = some x ∧
            (VElems.econs (GoVal.intV 1) (.econs (.intV 2) (.econs (.intV 4) (.econs (.intV 5) .enil)))).get? i = some y ∧
            defaultEngine.compareValues x y = .someD d ∧
            Change.mk none (some (.intV 5)) .noneD .addT = .mk none none (.someD d) .modT) ∨
         ((VElems.econs (GoVal.intV 1) (.econs (.intV 2) (.econs (.intV 4) (.econs (.intV 5) .enil)))).size ≤ i ∧
            ∃ x, (VElems.econs (GoVal.intV 1) (.econs (.intV 3) (.econs (.intV 4) .enil))).get? i = some x ∧
              Change.mk none (some (.intV 5)) .noneD .addT = .mk (some x) none .noneD .delT) ∨
         ((VElems.econs (GoVal.intV 1) (.econs (.intV 3) (.econs (.intV 4) .enil))).size ≤ i ∧
            ∃ y, (VElems.econs (GoVal.intV 1) (.econs (.intV 2) (.econs (.intV 4) (.econs (.intV 5) .enil)))).get? i = some y ∧
              Change.mk none (some (.intV 5)) .noneD .addT = .mk none (some y) .noneD .addT))) :=
  ⟨by decide, by decide,
    (claim_C4_index_aligned defaultEngine
      (.econs (.intV 1) (.econs (.intV 3) (.econs (.intV 4) .enil)))
      (.econs (.intV 1) (.econs (.intV 2) (.econs (.intV 4) (.econs (.intV 5) .enil))))
      (by decide) (by decide)).2.2 "3" (Change.mk none (some (.intV 5)) .noneD .addT)⟩

/-! C3: rendering of change entries. -/

theorem jsonOfChange_keys : ∀ (c : Change), (jsonOfChange c).objKeys = changeJsonKeys c
  | .mk o n v t => by cases o <;> cases n <;> cases v <;> rfl

theorem jsonOfChange_type_tag : ∀ (c : Change),
    (jsonOfChange c).objEntries.lookup "type" = some (.strJ c.typ.tag)
  | .mk o n v t => by cases o <;> cases n <;> cases v <;> rfl

theorem toList_toJEntries : ∀ l : List (String × Json), (toJEntries l).toList = l
  | [] => rfl
  | (k, j) :: rest => by rw [toJEntries, JEntries.toList, toList_toJEntries rest]

theorem mem_jsonDiffPairs : ∀ (d : DEntries) (k : String) (dv : DVal),
    (k, dv) ∈ d.toList → (k, jsonOfDVal dv) ∈ jsonDiffPairs d
  | .dnil, k, dv, h => by
      rw [DEntries.toList] at h
      exact absurd h (List.not_mem_nil _)
  | .dcons k2 d2 rest, k, dv, h => by
      rw [DEntries.toList] at h
      rw [jsonDiffPairs]
      rcases List.mem_cons.mp h with h1 | h1
      · cases h1
        exact List.mem_cons_self _ _
      · exact List.mem_cons_of_mem _ (mem_jsonDiffPairs rest k dv h1)

theorem insertSorted_perm {α : Type} (p : String × α) :
    ∀ l : List (String × α), (insertSorted p l).Perm (p :: l)
  | [] => List.Perm.refl _
  | q :: rest => by
      rw [insertSorted]
      split
      · exact List.Perm.refl _
      · exact ((insertSorted_perm p rest).cons q).trans (List.Perm.swap p q rest)

theorem sortByKey_perm {α : Type} : ∀ l : List (String × α), (sortByKey l).Perm l
  | [] => List.Perm.refl _
  | p :: rest => by
      show (insertSorted p (sortByKey rest)).Perm (p :: rest)
      exact (insertSorted_perm p (sortByKey rest)).trans ((sortByKey_perm rest).cons p)

/-- C3: every change entry reachable in a returned Delta is rendered as an
object carrying the correct `type` tag and exactly the keys among
`old_value`, `new_value`, `value` whose slots are populated (absent slots
are omitted, not rendered as null); and every top-level entry of the Delta
appears in the rendered tree of the whole Delta. -/
theorem claim_C3_rendering (e : Engine) (x y : GoVal) (d : Diff)
    (_hok : e.Compute (some x) (some y) = .ok d) :
    (∀ c ∈ DEntries.changesInD d,
      (jsonOfChange c).objKeys = changeJsonKeys c ∧
      (jsonOfChange c).objEntries.lookup "type" = some (.strJ c.typ.tag)) ∧
    (∀ k dv, (k, dv) ∈ d.toList →
      (k, jsonOfDVal dv) ∈ (Diff.JSONTree d).objEntries.toList) := by
  constructor
  · intro c _
    exact ⟨jsonOfChange_keys c, jsonOfChange_type_tag c⟩
  · intro k dv hmem
    show (k, jsonOfDVal dv) ∈ (toJEntries (sortByKey (jsonDiffPairs d))).toList
    rw [toList_toJEntries]
    exact ((sortByKey_perm (jsonDiffPairs d)).mem_iff).mpr (mem_jsonDiffPairs d k dv hmem)

/-- Witness for C3 at a concrete comparison: the Added-shaped pointer
transition renders with `new_value` and `type` only. -/
theorem claim_C3_rendering_witness :
    defaultEngine.Compute
      (some (.structV "Foo" (.fcons "FooPtr" (.nilPtrV .intT) .fnil)))
      (some (.structV "Foo" (.fcons "FooPtr" (.ptrV .intT (.intV 7)) .fnil))) =
      .ok (.dcons "FooPtr" (.ch (.mk none (some (.intV 7)) .noneD .modT)) .dnil) ∧
    (Change.mk none (some (.intV 7)) .noneD .modT) ∈
      DEntries.changesInD (.dcons "FooPtr" (.ch (.mk none (some (.intV 7)) .noneD .modT)) .dnil) ∧
    (jsonOfChange (.mk none (some (.intV 7)) .noneD .modT)).objKeys =
      changeJsonKeys (.mk none (some (.intV 7)) .noneD .modT) ∧
    (jsonOfChange (.mk none (some (.intV 7)) .noneD .modT)).objEntries.lookup "type" =
      some (.strJ (ChangeType.modT).tag) :=
  ⟨by decide, by decide,
    (claim_C3_rendering defaultEngine
      (.structV "Foo" (.fcons "FooPtr" (.nilPtrV .intT) .fnil))
      (.structV "Foo" (.fcons "FooPtr" (.ptrV .intT (.intV 7)) .fnil))
      (.dcons "FooPtr" (.ch (.mk none (some (.intV 7)) .noneD .modT)) .dnil)
      (by decide)).1
    (.mk none (some (.intV 7)) .noneD .modT) (by decide)⟩

/-! C1: how nested results attach to their keys. -/

theorem fd_lookup_none (e : Engine) (fy : GoVal) : ∀ (fs : VFields) (nm : String),
    fs.hasKey nm = false → (e.fieldsDiff fs fy).lookup nm = none
  | .fnil, nm, _ => rfl
  | .fcons nm2 vx rest, nm, h => by
      rw [VFields.hasKey, Bool.or_eq_false_iff] at h
      rw [fieldsDiff_fcons]
      by_cases hc : (isExported nm2 && !(e.IsIgnored nm2)) = true
      · rw [if_pos hc]
        rcases hfb : fieldByName fy nm2 with _ | vy
        · simp only [hfb]
          exact fd_lookup_none e fy rest nm h.2
        · simp only [hfb]
          rcases hcv : e.compareValues vx vy with _ | d
          · simp only [hcv]
            exact fd_lookup_none e fy rest nm h.2
          · simp only [hcv]
            rw [DEntries.lookup, h.1]
            simp only [Bool.false_eq_true, if_false]
            exact fd_lookup_none e fy rest nm h.2
      · rw [if_neg hc]
        exact fd_lookup_none e fy rest nm h.2

/-- The shared field loop stores the comparison result of an exported,
non-excluded field directly under the field's name: whatever shape the
result has (a `Change`, a nested `Diff` from `compareStructs`, or a
`map[string]Change` from `compareSlices`), the key maps to it unwrapped. -/
theorem fd_lookup (e : Engine) (fy : GoVal) : ∀ (fs : VFields) (nm : String)
    (vx vy : GoVal), fs.nodupKeys = true → (nm, vx) ∈ fs.toList →
    isExported nm = true → e.IsIgnored nm = false → fieldByName fy nm = some vy →
    (e.fieldsDiff fs fy).lookup nm = (e.compareValues vx vy).toOption
  | .fnil, nm, vx, vy, _, hmem, _, _, _ => by
      rw [VFields.toList] at hmem
      exact absurd hmem (List.not_mem_nil _)
  | .fcons nm2 vx2 rest, nm, vx, vy, hnd, hmem, hex, hig, hfb => by
      rw [VFields.nodupKeys, Bool.and_eq_true, Bool.not_eq_true'] at hnd
      rw [VFields.toList] at hmem
      rw [fieldsDiff_fcons]
      rcases List.mem_cons.mp hmem with h1 | h1
      · obtain ⟨he1, he2⟩ := (Prod.mk.injEq nm vx nm2 vx2).mp h1
        subst he1
        subst he2
        rw [hex, hig]
        simp only [Bool.not_false, Bool.and_true, if_true]
        rw [hfb]
        simp only []
        rcases hcv : e.compareValues vx vy with _ | d
        · simp only [hcv]
          rw [fd_lookup_none e fy rest nm hnd.1]
          rfl
        · simp only [hcv]
          rw [DEntries.lookup]
          simp only [beq_self_eq_true, if_true]
          rfl
      · have hne : (nm2 == nm) = false := by
          by_contra hb
          rw [Bool.not_eq_false, beq_iff_eq] at hb
          subst hb
          rw [VFields.hasKey_of_mem h1] at hnd
          exact Bool.noConfusion hnd.1
        by_cases hc : (isExported nm2 && !(e.IsIgnored nm2)) = true
        · rw [if_pos hc]
          rcases hfb2 : fieldByName fy nm2 with _ | vy2
          · simp only [hfb2]
            exact fd_lookup e fy rest nm vx vy hnd.2 h1 hex hig hfb
          · simp only [hfb2]
            rcases hcv2 : e.compareValues vx2 vy2 with _ | d2
            · simp only [hcv2]
              exact fd_lookup e fy rest nm vx vy hnd.2 h1 hex hig hfb
            · simp only [hcv2]
              rw [DEntries.lookup, hne]
              simp only [Bool.false_eq_true, if_false]
              exact fd_lookup e fy rest nm vx vy hnd.2 h1 hex hig hfb
        · rw [if_neg hc]
          exact fd_lookup e fy rest nm vx vy hnd.2 h1 hex hig hfb

/-- C1 (amended): the engine attaches a field's nonempty comparison result
directly at the field's key — a record-typed field's nested Delta and a
sequence-typed field's entry map are stored unwrapped — while wrapping as
the nested-value payload of a Modified entry happens exactly for the
differing elements inside sequence comparison. -/
theorem claim_C1_attachment (e : Engine) (fs : VFields) (fy : GoVal)
    (nm : String) (vx vy : GoVal)
    (hnd : fs.nodupKeys = true) (hmem : (nm, vx) ∈ fs.toList)
    (hex : isExported nm = true) (hig : e.IsIgnored nm = false)
    (hfb : fieldByName fy nm = some vy) :
    ((e.fieldsDiff fs fy).lookup nm = (e.compareValues vx vy).toOption) ∧
    (∀ (xs ys : VElems) (i : Nat) (k : String) (c : Change),
      (k, c) ∈ (e.elemsDiff xs ys i).toList →
      ∃ d, c = .mk none none (.someD d) .modT) := by
  refine ⟨fd_lookup e fy fs nm vx vy hnd hmem hex hig hfb, ?_⟩
  intro xs ys i k c hm
  obtain ⟨j, x, y, d, _, _, _, _, hcc⟩ := (ed_mem_iff e xs ys i k c).mp hm
  exact ⟨d, hcc⟩

/-- Witness for C1 (amended): a nested record field's Delta sits unwrapped
at the key. -/
theorem claim_C1_attachment_witness :
    (VFields.fcons "Bar" (GoVal.structV "Bar" (.fcons "StringVal" (.strV "a") .fnil)) .fnil).nodupKeys = true ∧
    (defaultEngine.fieldsDiff
        (.fcons "Bar" (.structV "Bar" (.fcons "StringVal" (.strV "a") .fnil)) .fnil)
        (.structV "Foo" (.fcons "Bar" (.structV "Bar" (.fcons "StringVal" (.strV "b") .fnil)) .fnil))).lookup "Bar" =
      (defaultEngine.compareValues
        (.structV "Bar" (.fcons "StringVal" (.strV "a") .fnil))
        (.structV "Bar" (.fcons "StringVal" (.strV "b") .fnil))).toOption :=
  ⟨by decide,
    (claim_C1_attachment defaultEngine
      (.fcons "Bar" (.structV "Bar" (.fcons "StringVal" (.strV "a") .fnil)) .fnil)
      (.structV "Foo" (.fcons "Bar" (.structV "Bar" (.fcons "StringVal" (.strV "b") .fnil)) .fnil))
      "Bar" (.structV "Bar" (.fcons "StringVal" (.strV "a") .fnil))
      (.structV "Bar" (.fcons "StringVal" (.strV "b") .fnil))
      (by decide) (by decide) (by decide) (by decide) (by decide)).1⟩

/-- Counterexample to C1 as stated: a differing record-typed field and a
differing sequence-typed field attach their nested Delta / entry map
directly at the field's key — the stored values are not Modified
ChangeEntries. -/
theorem claim_C1_counterexample :
    Compute
      (some (.structV "Foo" (.fcons "Bar" (.structV "Bar" (.fcons "StringVal" (.strV "a") .fnil))
        (.fcons "IntList" (.sliceV .intT (.econs (.intV 1) .enil)) .fnil))))
      (some (.structV "Foo" (.fcons "Bar" (.structV "Bar" (.fcons "StringVal" (.strV "b") .fnil))
        (.fcons "IntList" (.sliceV .intT (.econs (.intV 2) .enil)) .fnil)))) =
      .ok (.dcons "Bar"
            (.diffMap (.dcons "StringVal"
              (.ch (.mk (some (.strV "a")) (some (.strV "b")) .noneD .modT)) .dnil))
          (.dcons "IntList"
            (.changeMap (.ccons "0"
              (.mk none none (.someD (.ch (.mk (some (.intV 1)) (some (.intV 2)) .noneD .modT)))
                .modT) .cnil))
           .dnil)) ∧
    DVal.isChangeEntry (.diffMap (.dcons "StringVal"
      (.ch (.mk (some (.strV "a")) (some (.strV "b")) .noneD .modT)) .dnil)) = false ∧
    DVal.isChangeEntry (.changeMap (.ccons "0"
      (.mk none none (.someD (.ch (.mk (some (.intV 1)) (some (.intV 2)) .noneD .modT)))
        .modT) .cnil)) = false := by
  decide
